import Mathlib

/-!
Shallow embedding of `src/mindly/mindly.py` (class `Mindly`) from the
mindly-py repository, together with proofs checking the natural-language
specification's claims against it.

Modelling conventions:
* Python JSON-like values are `PyVal`; Python dicts are association lists
  that keep insertion order, as Python dicts do.  Setting an existing key
  keeps its position; setting a new key appends at the end.
* Fallible Python code (KeyError, IndexError, ValueError, TypeError,
  custom exceptions, I/O failures) is modelled in `Except Err`.
* `_gen_id()` (clock + randomness) and `datetime.now()` are modelled as
  explicit arguments of the operations that call them.
* Mindly data files carry string identifiers and string `text` fields;
  the embedding fixes node identifiers, filenames and display texts as
  `String` and raises `Err.typeError` on other shapes, where Python
  would silently use a non-string value as a dict key or list element.
* Disk contents are modelled as an association list from filename to the
  *parsed* JSON value of that file (after `zlib.decompress` for `.mndl`
  files); `json`/`zlib` are third-party libraries, and the byte-level
  codec used by `write`/`load` is modelled separately and parametrically
  for the round-trip claim.
* Python's recursion in `_extract_nodes` is bounded only by the data; the
  embedding threads an explicit `fuel` argument and fails with
  `Err.fuelExhausted` when it runs out, so all results are stated about
  runs where the fuel sufficed.
-/

/-- A Python value as found in Mindly's JSON data: strings, integers,
booleans, lists and (insertion-ordered) dicts with string keys. -/
inductive PyVal where
  | str (s : String)
  | int (n : Int)
  | bool (b : Bool)
  | list (xs : List PyVal)
  | dict (kvs : List (String × PyVal))

/-- Errors the embedded code can raise: Python built-ins (`KeyError`,
`IndexError`, `ValueError`, `TypeError`, file I/O) and the custom
exceptions from `src/mindly/exceptions.py`. -/
inductive Err where
  | keyError (key : String)
  | indexError
  | valueError
  | typeError
  | ioError (filename : String)
  | unsupportedMindlyFileFormatVersion
  | ambiguousNamePath
  | noSuchNodeError
  | fuelExhausted
  deriving DecidableEq, Repr

/-- First value bound to key `k`, Python `d[k]` / `d.get(k)` on an
insertion-ordered dict. -/
def alistGet {β : Type} (l : List (String × β)) (k : String) : Option β :=
  match l with
  | [] => none
  | (k', v) :: rest => if k' = k then some v else alistGet rest k

/-- Python `d[k] = v`: overwrite in place if the key exists (keeping its
position), otherwise append at the end. -/
def alistSet {β : Type} (l : List (String × β)) (k : String) (v : β) :
    List (String × β) :=
  match l with
  | [] => [(k, v)]
  | (k', v') :: rest =>
    if k' = k then (k, v) :: rest else (k', v') :: alistSet rest k v

/-- Python `d[k]` with `KeyError` on a missing key. -/
def alistGetE {β : Type} (l : List (String × β)) (k : String) : Except Err β :=
  match alistGet l k with
  | some v => .ok v
  | none => .error (.keyError k)

/-- Python `d1.update(d2)`. -/
def pyUpdate {β : Type} (l upd : List (String × β)) : List (String × β) :=
  upd.foldl (fun acc kv => alistSet acc kv.1 kv.2) l

/-- Python `list.index(x)`: position of the first occurrence, if any. -/
def listIndex (l : List String) (x : String) : Option Nat :=
  match l with
  | [] => none
  | y :: rest => if y = x then some 0 else (listIndex rest x).map (· + 1)

/-- Python `list.index(x)` as an expression: `ValueError` when absent. -/
def listIndexE (l : List String) (x : String) : Except Err Nat :=
  match listIndex l x with
  | some i => .ok i
  | none => .error Err.valueError

/-- Python `d.get(k)` on a dict value (`none` when missing). -/
def PyVal.get? (v : PyVal) (k : String) : Option PyVal :=
  match v with
  | .dict kvs => alistGet kvs k
  | _ => none

/-- Python `k in d.keys()`. -/
def PyVal.hasKey (v : PyVal) (k : String) : Bool :=
  (v.get? k).isSome

/-- Python `d[k]` on a dict value: `KeyError` when missing, `TypeError`
when subscripting a non-dict. -/
def PyVal.getItem (v : PyVal) (k : String) : Except Err PyVal :=
  match v with
  | .dict kvs =>
    match alistGet kvs k with
    | some x => .ok x
    | none => .error (.keyError k)
  | _ => .error .typeError

/-- Python `d[k] = x` on a dict value. -/
def PyVal.setKey (v : PyVal) (k : String) (x : PyVal) : Except Err PyVal :=
  match v with
  | .dict kvs => .ok (.dict (alistSet kvs k x))
  | _ => .error .typeError

/-- Expect a Python list (iterating anything else in the source would
either raise or iterate keys/characters and then fail; both are folded
into `TypeError`). -/
def PyVal.asList (v : PyVal) : Except Err (List PyVal) :=
  match v with
  | .list xs => .ok xs
  | _ => .error .typeError

/-- Expect a string (see the modelling conventions above). -/
def PyVal.asStr (v : PyVal) : Except Err String :=
  match v with
  | .str s => .ok s
  | _ => .error .typeError

/-- Expect an integer. -/
def PyVal.asInt (v : PyVal) : Except Err Int :=
  match v with
  | .int n => .ok n
  | _ => .error .typeError

/-- Python truthiness of a value, as used by `or`-chains and
`if not node.get('ideas')`. -/
def pyTruthy (v : PyVal) : Bool :=
  match v with
  | .str s => !(s == "")
  | .int n => !(n == 0)
  | .bool b => b
  | .list xs => !xs.isEmpty
  | .dict kvs => !kvs.isEmpty

/-- In-memory state of a `Mindly` object (`src/mindly/mindly.py`,
`__init__` and `_reset_state`).  `files_modified` keeps only the keys of
the Python dict: every value stored is `True` and insertion order is
preserved. -/
structure Mindly where
  data_dir : String
  files_modified : List String
  file_data : List (String × PyVal)
  nodes : List (String × PyVal)
  «structure» : List (String × List String)
  proxy_filenames : List String
  id_path : List (String × List String)
  name_path : List (String × List String)
  filename_by_id : List (String × String)

/-- `self.proxy_defaults` as set by `_set_defaults` (mindly.py:328-335). -/
def proxy_defaults : List (String × PyVal) :=
  [("section", .str ""), ("hasNote", .bool false),
   ("hasWebLink", .bool false), ("color", .str "blue0")]

/-- `self.idea_defaults` as set by `_set_defaults` (mindly.py:336-341). -/
def idea_defaults : List (String × PyVal) :=
  [("ideaType", .int 1), ("note", .str ""),
   ("color", .str "blue0"), ("colorThemeType", .int 0)]

/-- `_reset_state` (mindly.py:359-384).  Note that `files_modified` is
*not* among the attributes it resets. -/
def Mindly._reset_state (st : Mindly) : Mindly :=
  { st with
    file_data := [],
    nodes := [],
    «structure» := [("__root", [])],
    proxy_filenames := [],
    id_path := [],
    name_path := [("__root", [])],
    filename_by_id := [] }

/-- `self.files_modified[filename] = True`: Python keeps the position of
an existing key and appends a new one. -/
def addFlag (l : List String) (k : String) : List String :=
  if l.contains k then l else l ++ [k]

/-- `self.file_data["mindly.index"]['proxies'][pos][key] = v`
(the proxy-record update statements in `mark_modified`). -/
def setProxyField (fd : List (String × PyVal)) (pos : Nat) (key : String)
    (v : PyVal) : Except Err (List (String × PyVal)) := do
  let index ← alistGetE fd "mindly.index"
  let proxies ← index.getItem "proxies"
  let ps ← proxies.asList
  let p ← match ps[pos]? with
    | some p => Except.ok p
    | none => Except.error Err.indexError
  let p' ← p.setKey key v
  let index' ← index.setKey "proxies" (.list (ps.set pos p'))
  .ok (alistSet fd "mindly.index" index')

/-- `self.file_data['mindly.index']['proxies'][i]['itemCount'] += 1`
(mindly.py:211). -/
def incProxyItemCount (fd : List (String × PyVal)) (pos : Nat) :
    Except Err (List (String × PyVal)) := do
  let index ← alistGetE fd "mindly.index"
  let proxies ← index.getItem "proxies"
  let ps ← proxies.asList
  let p ← match ps[pos]? with
    | some p => Except.ok p
    | none => Except.error Err.indexError
  let n ← (← p.getItem "itemCount").asInt
  let p' ← p.setKey "itemCount" (.int (n + 1))
  let index' ← index.setKey "proxies" (.list (ps.set pos p'))
  .ok (alistSet fd "mindly.index" index')

/-- `mark_modified` (mindly.py:224-245).  `mtime` stands for the
`datetime.now(...)` string computed inside the non-index branch.  The
trailing recursive call `self.mark_modified("mindly.index")` only sets
the index's dirty flag and returns, and is inlined as such. -/
def Mindly.mark_modified (st : Mindly) (filename : String) (mtime : String) :
    Except Err Mindly :=
  let st1 := { st with files_modified := addFlag st.files_modified filename }
  if filename = "mindly.index" then .ok st1
  else do
    let doc ← alistGetE st1.file_data filename
    let doc' ← doc.setKey "dateModified" (.str mtime)
    let st2 := { st1 with file_data := alistSet st1.file_data filename doc' }
    let pos ← listIndexE st2.proxy_filenames filename
    let fd ← setProxyField st2.file_data pos "dateModified" (.str mtime)
    let st3 := { st2 with file_data := fd }
    .ok { st3 with files_modified := addFlag st3.files_modified "mindly.index" }

/-- `new_section` (mindly.py:71-94).  `section_id` stands for the
`_gen_id()` result.  The call to `mark_modified("mindly.index")` never
reads the clock, so no timestamp argument is needed. -/
def Mindly.new_section (st : Mindly) (section_id text : String) :
    Except Err (Mindly × PyVal) := do
  let sect : PyVal := .dict [("identifier", .str section_id), ("text", .str text)]
  let index ← alistGetE st.file_data "mindly.index"
  let sections ← index.getItem "sections"
  let ss ← sections.asList
  let index' ← index.setKey "sections" (.list (ss ++ [sect]))
  let st1 := { st with file_data := alistSet st.file_data "mindly.index" index' }
  let st2 ← st1.mark_modified "mindly.index" ""
  .ok ({ st2 with
          id_path := alistSet st2.id_path section_id [section_id],
          name_path := alistSet st2.name_path section_id [text],
          filename_by_id := alistSet st2.filename_by_id section_id "mindly.index" },
       sect)

/-- `new_document` (mindly.py:96-158).  `node_id` and `file_id` stand for
the two `_gen_id()` results, `now` for the timestamp computed at the top
of the function and `mtime` for the one `mark_modified` reads later. -/
def Mindly.new_document (st : Mindly) (text sect_id note color : String)
    (node_id file_id now mtime : String) : Except Err (Mindly × PyVal) := do
  let filename := file_id ++ ".mndl"
  let proxy : PyVal := .dict (pyUpdate proxy_defaults
    [("dateCreated", .str now), ("dateModified", .str now), ("itemCount", .int 1),
     ("identifier", .str node_id), ("section", .str sect_id),
     ("filename", .str filename), ("text", .str text),
     ("color", .str (if color = "" then "blue0" else color))])
  let index ← alistGetE st.file_data "mindly.index"
  let proxies ← index.getItem "proxies"
  let ps ← proxies.asList
  let index' ← index.setKey "proxies" (.list (ps ++ [proxy]))
  let st1 := { st with file_data := alistSet st.file_data "mindly.index" index' }
  let st2 := { st1 with proxy_filenames := st1.proxy_filenames ++ [filename] }
  let newFile : PyVal := .dict
    [("fileFormatVersion", .int 4), ("dateCreated", .str now),
     ("dateModified", .str now)]
  let st3 := { st2 with file_data := alistSet st2.file_data filename newFile }
  let idea : PyVal := .dict (pyUpdate (pyUpdate idea_defaults
      ((if note = "" then [] else [("note", PyVal.str note)]) ++
       (if color = "" then [] else [("color", PyVal.str color)])))
    [("text", .str text), ("identifier", .str node_id)])
  let doc ← alistGetE st3.file_data filename
  let doc' ← doc.setKey "idea" idea
  let st4 := { st3 with file_data := alistSet st3.file_data filename doc' }
  let st5 := { st4 with nodes := alistSet st4.nodes node_id idea }
  let st6 ← st5.mark_modified filename mtime
  let sectNode ← alistGetE st6.nodes sect_id
  let sectText ← (← sectNode.getItem "text").asStr
  .ok ({ st6 with
          id_path := alistSet st6.id_path node_id [sect_id, node_id],
          name_path := alistSet st6.name_path node_id [sectText, text],
          filename_by_id := alistSet st6.filename_by_id node_id filename },
       idea)

/-- `new_idea` (mindly.py:160-219).  `idea_id` stands for the `_gen_id()`
result and `mtime` for the timestamp `mark_modified` computes. -/
def Mindly.new_idea (st : Mindly)
    (parent_id text idea_type note color color_theme_type : String)
    (idea_id mtime : String) : Except Err (Mindly × PyVal) := do
  -- if 'ideas' not in self.nodes[parent_id].keys(): ... = []
  let parent0 ← alistGetE st.nodes parent_id
  let parent1 ←
    if parent0.hasKey "ideas" then Except.ok parent0
    else parent0.setKey "ideas" (.list [])
  let st1 := { st with nodes := alistSet st.nodes parent_id parent1 }
  -- idea = { ... } with the or-chains for ideaType/color/colorThemeType
  let ideaTypeVal : PyVal :=
    if idea_type = "" then .int 1 else .str idea_type
  let colorVal : PyVal :=
    if color = "" then
      match parent1.get? "color" with
      | some v => if pyTruthy v then v else .str "blue0"
      | none => .str "blue0"
    else .str color
  let ctVal : PyVal :=
    if color_theme_type = "" then
      match parent1.get? "colorThemeType" with
      | some v => if pyTruthy v then v else .int 0
      | none => .int 0
    else .str color_theme_type
  let idea : PyVal := .dict
    [("text", .str text), ("identifier", .str idea_id), ("note", .str note),
     ("ideaType", ideaTypeVal), ("ideas", .list []),
     ("color", colorVal), ("colorThemeType", ctVal)]
  -- self.nodes[parent_id]['ideas'].append(idea)
  let cur ← parent1.getItem "ideas"
  let curList ← cur.asList
  let parent2 ← parent1.setKey "ideas" (.list (curList ++ [idea]))
  let st2 := { st1 with nodes := alistSet st1.nodes parent_id parent2 }
  -- self.nodes[idea_id] = idea
  let st3 := { st2 with nodes := alistSet st2.nodes idea_id idea }
  -- filename = self.filename_by_id[parent_id]
  let filename ← alistGetE st3.filename_by_id parent_id
  -- i = self.proxy_filenames.index(filename)
  let i ← listIndexE st3.proxy_filenames filename
  -- itemCount += 1
  let fd ← incProxyItemCount st3.file_data i
  let st4 := { st3 with file_data := fd }
  -- self.mark_modified(self.filename_by_id[parent_id])
  let filename2 ← alistGetE st4.filename_by_id parent_id
  let st5 ← st4.mark_modified filename2 mtime
  -- id_path / name_path / filename_by_id registrations
  let ppath ← alistGetE st5.id_path parent_id
  let pnames ← alistGetE st5.name_path parent_id
  .ok ({ st5 with
          id_path := alistSet st5.id_path idea_id (ppath ++ [idea_id]),
          name_path := alistSet st5.name_path idea_id (pnames ++ [text]),
          filename_by_id := alistSet st5.filename_by_id idea_id filename },
       idea)

/-- `new_node` (mindly.py:45-69): dispatch by the parent's `name_path`
length.  The very first statement subscripts `self.name_path[parent_id]`,
so an unknown `parent_id` raises `KeyError`.  `gid1`/`gid2`/`now`/`mtime`
stand for the generated ids and timestamps the chosen branch consumes. -/
def Mindly.new_node (st : Mindly)
    (parent_id text idea_type note color color_theme_type : String)
    (gid1 gid2 now mtime : String) : Except Err (Mindly × PyVal) := do
  let pp ← alistGetE st.name_path parent_id
  if pp.length = 0 then st.new_section gid1 text
  else if pp.length = 1 then
    st.new_document text parent_id note color gid1 gid2 now mtime
  else st.new_idea parent_id text idea_type note color color_theme_type gid1 mtime

/-- `get_name_path_matches` (mindly.py:310-324): ids of all entries whose
path equals the query, in dict (= insertion) order. -/
def Mindly.get_name_path_matches (st : Mindly) (qpath : List String) :
    List String :=
  (st.name_path.filter (fun kv => kv.2 == qpath)).map (·.1)

/-- `get_node_id_by_name_path` (mindly.py:286-308). -/
def Mindly.get_node_id_by_name_path (st : Mindly) (qpath : List String) :
    Except Err String :=
  let ms := st.get_name_path_matches qpath
  if ms.length > 1 then .error .ambiguousNamePath
  else match ms with
    | [] => .error .noSuchNodeError
    | m :: _ => .ok m

/-- One file write performed by `write` (mindly.py:247-269): the index is
dumped as plain JSON; any other payload is wrapped in the
`ideaDocumentDataObject` envelope, serialized and zlib-compressed.  The
constructor records the codec kind and the value handed to it. -/
inductive WriteOut where
  | plain (path : String) (payload : PyVal)
  | compressed (path : String) (wrapped : PyVal)

/-- The `for filename in [...]` loop of `write` (mindly.py:252-267).
Returns the writes performed and whether the loop ran to completion
(reaching the `self.files_modified = {}` statement): the `return` inside
the index branch leaves the loop *and the whole method* early. -/
def writeLoop (fd : List (String × PyVal)) (dir : String) :
    List String → Except Err (List WriteOut × Bool)
  | [] => .ok ([], true)
  | f :: rest => do
    let document ← alistGetE fd f
    let path := dir ++ "/" ++ f
    if f = "mindly.index" then
      .ok ([.plain path document], false)
    else do
      let (ws, completed) ← writeLoop fd dir rest
      .ok (.compressed path (.dict [("ideaDocumentDataObject", document)]) :: ws,
           completed)

/-- `write` (mindly.py:247-269).  `files_modified` values are always
`True`, so the comprehension `[k for k, v in ... if v]` is just the key
list.  The dirty set is reassigned to `{}` only when the loop completes
without the early `return`. -/
def Mindly.write (st : Mindly) : Except Err (Mindly × List WriteOut) := do
  let (ws, completed) ← writeLoop st.file_data st.data_dir st.files_modified
  .ok (if completed then { st with files_modified := [] } else st, ws)

/-- The data directory contents, as filename → parsed JSON value of that
file (for `.mndl` files, the value obtained after `zlib.decompress`).
A missing filename models `FileNotFoundError`. -/
def Disk : Type := List (String × PyVal)

/-- Python `l[-2]` on a list of ids. -/
def negSecond (l : List String) : Except Err String :=
  match l.reverse with
  | _ :: p :: _ => .ok p
  | _ => .error .indexError

/-- Python `open(...)` + decode + parse of one data file: the parsed
value of `{data_dir}/{filename}`, `FileNotFoundError` (as `ioError`)
when the file is absent. -/
def diskRead (disk : Disk) (filename : String) : Except Err PyVal :=
  match alistGet disk filename with
  | some v => .ok v
  | none => .error (.ioError filename)

/-- Python `d.get(k, dflt)` read as a string. -/
def pyGetStr (v : PyVal) (k dflt : String) : Except Err String :=
  match v.get? k with
  | some x => x.asStr
  | none => .ok dflt

/-- `_load_index` (mindly.py:386-400): read and parse
`{data_dir}/mindly.index`, store it in `file_data`, then reject any
`fileFormatVersion` other than `2` (a missing key yields `None`, which
also differs from `2`). -/
def Mindly._load_index (st : Mindly) (disk : Disk) : Except Err Mindly := do
  let v ← diskRead disk "mindly.index"
  let st1 := { st with file_data := alistSet st.file_data "mindly.index" v }
  match v.get? "fileFormatVersion" with
  | some (.int 2) => .ok st1
  | _ => .error .unsupportedMindlyFileFormatVersion

/-- The `for section in ...['sections']` loop of `_load_sections`
(mindly.py:409-417), also carrying the local `sections` accumulator. -/
def loadSectionsLoop (st : Mindly) (secs : List (String × PyVal)) :
    List PyVal → Except Err (Mindly × List (String × PyVal))
  | [] => .ok (st, secs)
  | sect :: rest => do
    let sid ← (← sect.getItem "identifier").asStr
    let text ← (← sect.getItem "text").asStr
    let st1 := { st with id_path := alistSet st.id_path sid [sid] }
    let st2 := { st1 with name_path := alistSet st1.name_path sid [text] }
    -- Sections are children of imaginary '__root' node
    let rootCh ← alistGetE st2.«structure» "__root"
    let st3 := { st2 with
      «structure» := alistSet (alistSet st2.«structure» "__root" (rootCh ++ [sid]))
        sid [] }
    loadSectionsLoop st3 (alistSet secs sid sect) rest

/-- `_load_sections` (mindly.py:402-419). -/
def Mindly._load_sections (st : Mindly) : Except Err Mindly := do
  let index ← alistGetE st.file_data "mindly.index"
  let sections ← (← index.getItem "sections").asList
  let (st1, secs) ← loadSectionsLoop st [] sections
  .ok { st1 with nodes := pyUpdate st1.nodes secs }

mutual

/-- `_extract_nodes` (mindly.py:474-510): register the node under
`id_path`/`name_path`, then — when `node.get('ideas')` is truthy — reset
`structure[node_id]` and walk the children.  Returns the flattened
`{node_id: node}` map in visit order. -/
def Mindly._extract_nodes (fuel : Nat) (st : Mindly) (node : PyVal)
    (idp : List String) : Except Err (Mindly × List (String × PyVal)) :=
  match fuel with
  | 0 => .error .fuelExhausted
  | fuel + 1 => do
    let node_id ← (← node.getItem "identifier").asStr
    let nodes0 : List (String × PyVal) := [(node_id, node)]
    let st1 := { st with id_path := alistSet st.id_path node_id idp }
    -- self.name_path[node_id] = self.name_path[id_path[-2]] + [node['text']]
    let parentKey ← negSecond idp
    let pnames ← alistGetE st1.name_path parentKey
    let text ← (← node.getItem "text").asStr
    let st2 := { st1 with name_path := alistSet st1.name_path node_id (pnames ++ [text]) }
    match node.get? "ideas" with
    | none => .ok (st2, nodes0)
    | some ideasVal =>
      if pyTruthy ideasVal then do
        let ideas ← ideasVal.asList
        let st3 := { st2 with «structure» := alistSet st2.«structure» node_id [] }
        extractLoop fuel st3 node_id idp nodes0 ideas
      else .ok (st2, nodes0)

/-- The `for idea in node['ideas']` loop of `_extract_nodes`
(mindly.py:504-508): append the child id to `structure[node_id]`, recurse,
and merge the returned flattened map into the accumulator. -/
def extractLoop (fuel : Nat) (st : Mindly) (node_id : String)
    (idp : List String) (acc : List (String × PyVal)) :
    List PyVal → Except Err (Mindly × List (String × PyVal))
  | [] => .ok (st, acc)
  | idea :: rest =>
    match fuel with
    | 0 => .error .fuelExhausted
    | fuel + 1 => do
      let cid ← (← idea.getItem "identifier").asStr
      let cur ← alistGetE st.«structure» node_id
      let st1 := { st with «structure» := alistSet st.«structure» node_id (cur ++ [cid]) }
      let cid2 ← (← idea.getItem "identifier").asStr
      let (st2, sub) ← Mindly._extract_nodes fuel st1 idea (idp ++ [cid2])
      extractLoop fuel st2 node_id idp (pyUpdate acc sub) rest

end

/-- `_load_ideas_document` (mindly.py:442-472): decode the document file,
reject `fileFormatVersion ≠ 4`, extract its idea tree, and point every
extracted node id at this filename in `filename_by_id`. -/
def Mindly._load_ideas_document (fuel : Nat) (st : Mindly) (disk : Disk)
    (filename : String) (idp : List String) :
    Except Err (Mindly × List (String × PyVal)) := do
  let raw ← diskRead disk filename
  let payload ← raw.getItem "ideaDocumentDataObject"
  let st1 := { st with file_data := alistSet st.file_data filename payload }
  match payload.get? "fileFormatVersion" with
  | some (.int 4) => do
    let rootIdea ← payload.getItem "idea"
    let (st2, ns) ← Mindly._extract_nodes fuel st1 rootIdea idp
    let st3 := { st2 with
      filename_by_id := pyUpdate st2.filename_by_id (ns.map (fun kv => (kv.1, filename))) }
    .ok (st3, ns)
  | _ => .error .unsupportedMindlyFileFormatVersion

/-- The `for proxy in ...['proxies']` loop of `_load_documents`
(mindly.py:431-439). -/
def loadDocumentsLoop (fuel : Nat) (disk : Disk) (st : Mindly) :
    List PyVal → Except Err Mindly
  | [] => .ok st
  | proxy :: rest => do
    -- section_id = proxy.get('section', '')
    let section_id ← pyGetStr proxy "section" ""
    -- self.structure[section_id].append(proxy['identifier'])
    let pid ← (← proxy.getItem "identifier").asStr
    let ch ← alistGetE st.«structure» section_id
    let st1 := { st with «structure» := alistSet st.«structure» section_id (ch ++ [pid]) }
    -- self.proxy_filenames.append(proxy['filename'])
    let fname ← (← proxy.getItem "filename").asStr
    let st2 := { st1 with proxy_filenames := st1.proxy_filenames ++ [fname] }
    -- self.nodes.update(self._load_ideas_document(proxy['filename'], [section_id, proxy['identifier']]))
    let fname2 ← (← proxy.getItem "filename").asStr
    let pid2 ← (← proxy.getItem "identifier").asStr
    let (st3, ns) ← st2._load_ideas_document fuel disk fname2 [section_id, pid2]
    let st4 := { st3 with nodes := pyUpdate st3.nodes ns }
    loadDocumentsLoop fuel disk st4 rest

/-- `_load_documents` (mindly.py:422-439). -/
def Mindly._load_documents (fuel : Nat) (st : Mindly) (disk : Disk) :
    Except Err Mindly := do
  let index ← alistGetE st.file_data "mindly.index"
  let proxies ← (← index.getItem "proxies").asList
  loadDocumentsLoop fuel disk st proxies

/-- `load_files` (mindly.py:343-357): reset, then populate from disk. -/
def Mindly.load_files (fuel : Nat) (st : Mindly) (disk : Disk) :
    Except Err Mindly := do
  let st1 := st._reset_state
  let st2 ← st1._load_index disk
  let st3 ← st2._load_sections
  st3._load_documents fuel disk

/-! ### Concrete fixtures used by counterexamples and witnesses -/

/-- A parsed empty Mindly index: `fileFormatVersion` 2, no sections, no
proxies. -/
def emptyIndexVal : PyVal :=
  .dict [("fileFormatVersion", .int 2), ("sections", .list []), ("proxies", .list [])]

/-- A data directory holding only the empty index. -/
def diskEmpty : Disk := [("mindly.index", emptyIndexVal)]

/-- An in-memory state as obtained after loading `diskEmpty`. -/
def stEmpty : Mindly :=
  { data_dir := "/data",
    files_modified := [],
    file_data := [("mindly.index", emptyIndexVal)],
    nodes := [],
    «structure» := [("__root", [])],
    proxy_filenames := [],
    id_path := [],
    name_path := [("__root", [])],
    filename_by_id := [] }

/-- A data directory with one section `s1` ("Work") and one document
`d1` ("Notes", file `f1.mndl`) holding a child idea `i1` ("Detail"). -/
def disk2 : Disk :=
  [("mindly.index", .dict
      [("fileFormatVersion", .int 2),
       ("sections", .list [.dict [("identifier", .str "s1"), ("text", .str "Work")]]),
       ("proxies", .list [.dict
          [("identifier", .str "d1"), ("section", .str "s1"),
           ("filename", .str "f1.mndl"), ("itemCount", .int 2),
           ("color", .str "red2")]])]),
   ("f1.mndl", .dict
      [("ideaDocumentDataObject", .dict
         [("fileFormatVersion", .int 4),
          ("idea", .dict
            [("identifier", .str "d1"), ("text", .str "Notes"),
             ("color", .str "red2"), ("colorThemeType", .int 3),
             ("ideas", .list [.dict
               [("identifier", .str "i1"), ("text", .str "Detail")]])])])])]

/-- The index payload of `disk2`. -/
def idx2 : PyVal :=
  .dict [("fileFormatVersion", .int 2),
    ("sections", .list [.dict [("identifier", .str "s1"), ("text", .str "Work")]]),
    ("proxies", .list [.dict
       [("identifier", .str "d1"), ("section", .str "s1"),
        ("filename", .str "f1.mndl"), ("itemCount", .int 2),
        ("color", .str "red2")]])]

/-- The proxy record of `disk2`. -/
def proxyLit : PyVal :=
  .dict [("identifier", .str "d1"), ("section", .str "s1"),
         ("filename", .str "f1.mndl"), ("itemCount", .int 2),
         ("color", .str "red2")]

/-- The root idea of `disk2`'s document file. -/
def rootIdea1 : PyVal :=
  .dict [("identifier", .str "d1"), ("text", .str "Notes"),
         ("color", .str "red2"), ("colorThemeType", .int 3),
         ("ideas", .list [.dict [("identifier", .str "i1"), ("text", .str "Detail")]])]

/-- The child idea of `disk2`'s document file. -/
def i1Node : PyVal := .dict [("identifier", .str "i1"), ("text", .str "Detail")]

/-- The decoded document payload of `f1.mndl`. -/
def docPayload1 : PyVal := .dict [("fileFormatVersion", .int 4), ("idea", rootIdea1)]

/-- State after `_reset_state` + `_load_index` on `disk2`. -/
def stA : Mindly :=
  { data_dir := "/data", files_modified := [],
    file_data := [("mindly.index", idx2)],
    nodes := [], «structure» := [("__root", [])], proxy_filenames := [],
    id_path := [], name_path := [("__root", [])], filename_by_id := [] }

/-- State after `_load_sections` on `stA`. -/
def stB : Mindly :=
  { stA with
    nodes := [("s1", .dict [("identifier", .str "s1"), ("text", .str "Work")])],
    «structure» := [("__root", ["s1"]), ("s1", [])],
    id_path := [("s1", ["s1"])],
    name_path := [("__root", []), ("s1", ["Work"])] }

/-- `stB` after the proxy's child registration in `structure`. -/
def stB2 : Mindly :=
  { stB with «structure» := [("__root", ["s1"]), ("s1", ["d1"])] }

/-- `stB2` after appending the proxy's filename. -/
def stB3 : Mindly :=
  { stB2 with proxy_filenames := ["f1.mndl"] }

/-- `stB3` after `_load_ideas_document` on `f1.mndl`. -/
def stY : Mindly :=
  { stB3 with
    file_data := [("mindly.index", idx2), ("f1.mndl", docPayload1)],
    id_path := [("s1", ["s1"]), ("d1", ["s1", "d1"]), ("i1", ["s1", "d1", "i1"])],
    name_path := [("__root", []), ("s1", ["Work"]), ("d1", ["Work", "Notes"]),
                  ("i1", ["Work", "Notes", "Detail"])],
    «structure» := [("__root", ["s1"]), ("s1", ["d1"]), ("d1", ["i1"])],
    filename_by_id := [("d1", "f1.mndl"), ("i1", "f1.mndl")] }

/-- The flattened node map `_load_ideas_document` returns for `f1.mndl`. -/
def ns1 : List (String × PyVal) := [("d1", rootIdea1), ("i1", i1Node)]

/-- The fully loaded state for `disk2`. -/
def stL : Mindly :=
  { stY with
    nodes := [("s1", .dict [("identifier", .str "s1"), ("text", .str "Work")]),
              ("d1", rootIdea1), ("i1", i1Node)] }

/-- The idea record `new_idea "d1" "Detail2"` creates on `stL`:
color and colorThemeType inherited from `d1`. -/
def idea2 : PyVal :=
  .dict [("text", .str "Detail2"), ("identifier", .str "i2"), ("note", .str ""),
         ("ideaType", .int 1), ("ideas", .list []),
         ("color", .str "red2"), ("colorThemeType", .int 3)]

/-- A data directory with one section and an empty proxy list, used by
scenarios that only need a loaded Section. -/
def diskSec : Disk :=
  [("mindly.index", .dict
      [("fileFormatVersion", .int 2),
       ("sections", .list [.dict [("identifier", .str "s1"), ("text", .str "Work")]]),
       ("proxies", .list [])])]

/-- The loaded state for `diskSec`. -/
def stSec : Mindly :=
  { data_dir := "/data", files_modified := [],
    file_data := [("mindly.index", .dict
      [("fileFormatVersion", .int 2),
       ("sections", .list [.dict [("identifier", .str "s1"), ("text", .str "Work")]]),
       ("proxies", .list [])])],
    nodes := [("s1", .dict [("identifier", .str "s1"), ("text", .str "Work")])],
    «structure» := [("__root", ["s1"]), ("s1", [])],
    proxy_filenames := [],
    id_path := [("s1", ["s1"])],
    name_path := [("__root", []), ("s1", ["Work"])],
    filename_by_id := [] }

/-- Success projection of one `write` output: the path written. -/
def WriteOut.pathOf : WriteOut → String
  | .plain p _ => p
  | .compressed p _ => p

/-- A realistic mutation session: load `diskSec`, create a Section, then
create a Document under the pre-existing section `s1`.  After it, the
dirty set is `["mindly.index", "f2.mndl"]` (the index first). -/
def c1State : Except Err Mindly := do
  let st ← Mindly.load_files 9 stEmpty diskSec
  let (st, _) ← st.new_section "s2" "Play"
  let (st, _) ← st.new_document "Notes2" "s1" "" "" "d2" "f2" "T1" "T1"
  .ok st

/-- A state with stale dirty flags, for reload behaviour checks. -/
def stDirty : Mindly :=
  { stEmpty with files_modified := ["x.mndl", "mindly.index"] }

/-! ### Invariant predicates over the derived indices -/

/-- Ancestry lengths agree: every `id_path` entry has a `name_path`
entry of the same length (spec §8, first testable property). -/
def LenInv (st : Mindly) : Prop :=
  ∀ id p, alistGet st.id_path id = some p →
    ∃ q, alistGet st.name_path id = some q ∧ q.length = p.length

/-- `structure` inverts the parent relation of `id_path`: a one-element
ancestry (a Section) is listed under the virtual root, and a longer
ancestry is listed under its `[-2]` element (spec §3/§8). -/
def StructInv (st : Mindly) : Prop :=
  ∀ id p, alistGet st.id_path id = some p →
    (p.length = 1 → ∃ l, alistGet st.«structure» "__root" = some l ∧ id ∈ l) ∧
    (2 ≤ p.length → ∃ par l, negSecond p = .ok par ∧
        alistGet st.«structure» par = some l ∧ id ∈ l)

/-- Every element of a stored ancestry is either the virtual root marker
or itself a key of `id_path` (auxiliary bookkeeping invariant). -/
def AncInv (st : Mindly) : Prop :=
  ∀ id p, alistGet st.id_path id = some p →
    ∀ a ∈ p, a = "__root" ∨ (alistGet st.id_path a).isSome = true

/-- Every `structure` key is the virtual root or a registered node
(auxiliary bookkeeping invariant used by the load proofs). -/
def StructDom (st : Mindly) : Prop :=
  ∀ k, (alistGet st.«structure» k).isSome = true →
    k = "__root" ∨ (alistGet st.id_path k).isSome = true

/-- Positional correspondence of the two ancestry indices (spec §8,
second testable property): position `i` of a node's ancestry-by-id names
a registered node whose own ancestries are exactly the length-`(i+1)`
prefixes of this node's ancestries. -/
def PosInv (st : Mindly) : Prop :=
  ∀ id p, alistGet st.id_path id = some p →
    ∀ q, alistGet st.name_path id = some q →
    ∀ i a, p.get? i = some a →
      alistGet st.id_path a = some (p.take (i + 1)) ∧
      alistGet st.name_path a = some (q.take (i + 1))

/-! ### Identifier collectors mirroring the load traversal

These recompute, from the raw disk data, the identifiers that
`_load_sections` / `_extract_nodes` will register, so that disk
well-formedness (unique identifiers, no `"__root"` clash, proxies that
reference real sections — the spec's §3 data-model invariants) can be
stated as a hypothesis. -/

mutual

/-- Identifiers visited by `_extract_nodes` on `node`, in visit order. -/
def collectIds (fuel : Nat) (node : PyVal) : Option (List String) :=
  match fuel with
  | 0 => none
  | fuel + 1 =>
    match node.get? "identifier" with
    | some (.str id) =>
      match node.get? "ideas" with
      | none => some [id]
      | some v =>
        if pyTruthy v then
          match v with
          | .list xs => (collectIdsList fuel xs).map (id :: ·)
          | _ => none
        else some [id]
    | _ => none

/-- Identifiers visited by `extractLoop` on a child list. -/
def collectIdsList (fuel : Nat) (l : List PyVal) : Option (List String) :=
  match l with
  | [] => some []
  | x :: rest =>
    match fuel with
    | 0 => none
    | fuel + 1 => do
      let cids ← collectIds fuel x
      let rids ← collectIdsList fuel rest
      some (cids ++ rids)

end

/-- Identifiers of the index's section records, in order. -/
def sectionIdsOf : List PyVal → Option (List String)
  | [] => some []
  | s :: rest =>
    match s.get? "identifier" with
    | some (.str i) => (sectionIdsOf rest).map (i :: ·)
    | _ => none

/-- The `section` field a proxy record will resolve to
(`proxy.get('section', '')`). -/
def proxySectionOf (p : PyVal) : Option String :=
  match p.get? "section" with
  | some (.str s) => some s
  | none => some ""
  | some _ => none

/-- `proxySectionOf` over a proxy list. -/
def proxySectionsOf : List PyVal → Option (List String)
  | [] => some []
  | p :: rest =>
    match proxySectionOf p with
    | some s => (proxySectionsOf rest).map (s :: ·)
    | none => none

/-- Identifiers contained in the document file a proxy points at. -/
def docIdsOf (fuel : Nat) (disk : Disk) (proxy : PyVal) : Option (List String) :=
  match proxy.get? "filename" with
  | some (.str f) =>
    match alistGet disk f with
    | some raw =>
      match raw.get? "ideaDocumentDataObject" with
      | some payload =>
        match payload.get? "idea" with
        | some idea => collectIds fuel idea
        | none => none
      | _ => none
    | none => none
  | _ => none

/-- `docIdsOf` over a proxy list. -/
def allDocIds (fuel : Nat) (disk : Disk) : List PyVal → Option (List (List String))
  | [] => some []
  | p :: rest =>
    match docIdsOf fuel disk p with
    | some ids => (allDocIds fuel disk rest).map (ids :: ·)
    | none => none

/-- The section identifiers of a data directory's index, straight from
the raw content. -/
def sectionIdsFromDisk (disk : Disk) : Option (List String) :=
  match alistGet disk "mindly.index" with
  | some iv =>
    match iv.get? "sections" with
    | some (.list ss) => sectionIdsOf ss
    | _ => none
  | none => none

/-- Boolean distinctness of a string list. -/
def distinctB : List String → Bool
  | [] => true
  | x :: rest => !(rest.contains x) && distinctB rest

/-- The §3 invariant that a Document's proxy record and the root idea
of the file it references share one identifier: the proxy's
`identifier` equals the first identifier of the referenced document's
tree (its root). -/
def proxyRootMatch (fuel : Nat) (disk : Disk) (p : PyVal) : Bool :=
  match p.get? "identifier", docIdsOf fuel disk p with
  | some (.str pid), some (did :: _) => pid == did
  | _, _ => false

/-- Well-formedness of a data directory, mirroring the spec's §3
invariants: all node identifiers (sections and document trees) are
pairwise distinct, none is the reserved marker `"__root"`, every
proxy's `section` field names one of the index's sections, and every
proxy shares its identifier with its document's root idea. -/
def loadWF (fuel : Nat) (disk : Disk) : Bool :=
  match alistGet disk "mindly.index" with
  | some iv =>
    match iv.get? "sections", iv.get? "proxies" with
    | some (.list ss), some (.list ps) =>
      match sectionIdsOf ss, allDocIds fuel disk ps, proxySectionsOf ps with
      | some secIds, some dss, some psecs =>
        let allIds := secIds ++ dss.flatten
        distinctB allIds && !(allIds.contains "__root")
          && psecs.all (secIds.contains ·)
          && ps.all (proxyRootMatch fuel disk ·)
      | _, _, _ => false
    | _, _ => false
  | none => false

/-! ### The byte-level codec of `write` / `_load_index` /
`_load_ideas_document`, parametrically in the `json` and `zlib` library
functions

`dumps`/`loads` stand for `json.dumps`+UTF-8 encoding and its inverse,
`compress`/`decompress` for `zlib.compress`/`zlib.decompress`; bytes are
`List Nat`.  What the repository adds around them is the envelope
wrapping and the choice of codec per file kind. -/

/-- The `{'ideaDocumentDataObject': document}` envelope (mindly.py:264-266). -/
def wrapDocument (payload : PyVal) : PyVal :=
  .dict [("ideaDocumentDataObject", payload)]

/-- Index encoding used by `write`: plain JSON (mindly.py:257-259). -/
def encode_index (dumps : PyVal → List Nat) (payload : PyVal) : List Nat :=
  dumps payload

/-- Index decoding used by `_load_index`: plain JSON (mindly.py:392-394). -/
def decode_index (loads : List Nat → Option PyVal) (bs : List Nat) : Option PyVal :=
  loads bs

/-- Document encoding used by `write`: envelope, serialize, compress
(mindly.py:262-267). -/
def encode_document (dumps : PyVal → List Nat) (compress : List Nat → List Nat)
    (payload : PyVal) : List Nat :=
  compress (dumps (wrapDocument payload))

/-- Document decoding used by `_load_ideas_document`: decompress, parse,
unwrap the envelope key (mindly.py:456-460). -/
def decode_document (loads : List Nat → Option PyVal)
    (decompress : List Nat → Option (List Nat)) (bs : List Nat) : Option PyVal :=
  match decompress bs with
  | some plain =>
    match loads plain with
    | some v => v.get? "ideaDocumentDataObject"
    | none => none
  | none => none

/-! ### A concrete serializer/parser pair instantiating the codec
parameters in witnesses -/

mutual

/-- Compact JSON text of a `PyVal` (no escaping: the witness values
contain no quotes or backslashes). -/
def jsonDumps : PyVal → List Char
  | .str s => '"' :: s.data ++ ['"']
  | .int n => (toString n).data
  | .bool true => "true".data
  | .bool false => "false".data
  | .list xs => '[' :: jsonDumpsArr xs ++ [']']
  | .dict kvs => '{' :: jsonDumpsObj kvs ++ ['}']

/-- Comma-separated serialization of an array body. -/
def jsonDumpsArr : List PyVal → List Char
  | [] => []
  | [x] => jsonDumps x
  | x :: rest => jsonDumps x ++ ',' :: jsonDumpsArr rest

/-- Comma-separated serialization of an object body. -/
def jsonDumpsObj : List (String × PyVal) → List Char
  | [] => []
  | [(k, v)] => '"' :: k.data ++ '"' :: ':' :: jsonDumps v
  | (k, v) :: rest =>
    '"' :: k.data ++ '"' :: ':' :: jsonDumps v ++ ',' :: jsonDumpsObj rest

end

/-- Decimal digits to a natural number. -/
def digitsToNat (ds : List Char) : Nat :=
  ds.foldl (fun acc c => acc * 10 + (c.toNat - 48)) 0

/-- Parse a run of decimal digits. -/
def parseNat (cs : List Char) : Option (Nat × List Char) :=
  let ds := cs.takeWhile (·.isDigit)
  if ds.isEmpty then none
  else some (digitsToNat ds, cs.dropWhile (·.isDigit))

mutual

/-- Fueled recursive-descent parser for the output of `jsonDumps`. -/
def parseVal (fuel : Nat) (cs : List Char) : Option (PyVal × List Char) :=
  match fuel with
  | 0 => none
  | fuel + 1 =>
    match cs with
    | '"' :: rest =>
      let s := rest.takeWhile (· != '"')
      (match rest.dropWhile (· != '"') with
       | '"' :: tail => some (.str (String.mk s), tail)
       | _ => none)
    | 't' :: 'r' :: 'u' :: 'e' :: tail => some (.bool true, tail)
    | 'f' :: 'a' :: 'l' :: 's' :: 'e' :: tail => some (.bool false, tail)
    | '[' :: ']' :: tail => some (.list [], tail)
    | '[' :: rest =>
      (match parseArr fuel rest with
       | some (xs, tail) => some (.list xs, tail)
       | none => none)
    | '{' :: '}' :: tail => some (.dict [], tail)
    | '{' :: rest =>
      (match parseObj fuel rest with
       | some (kvs, tail) => some (.dict kvs, tail)
       | none => none)
    | '-' :: rest =>
      (match parseNat rest with
       | some (n, tail) => some (.int (-(n : Int)), tail)
       | none => none)
    | _ =>
      (match parseNat cs with
       | some (n, tail) => some (.int (n : Int), tail)
       | none => none)

/-- Parse a non-empty array body up to and including `]`. -/
def parseArr (fuel : Nat) (cs : List Char) : Option (List PyVal × List Char) :=
  match fuel with
  | 0 => none
  | fuel + 1 =>
    match parseVal fuel cs with
    | some (v, ',' :: more) =>
      (match parseArr fuel more with
       | some (xs, tail) => some (v :: xs, tail)
       | none => none)
    | some (v, ']' :: tail) => some ([v], tail)
    | _ => none

/-- Parse a non-empty object body up to and including the closing brace. -/
def parseObj (fuel : Nat) (cs : List Char) : Option (List (String × PyVal) × List Char) :=
  match fuel with
  | 0 => none
  | fuel + 1 =>
    match cs with
    | '"' :: rest =>
      let k := rest.takeWhile (· != '"')
      (match rest.dropWhile (· != '"') with
       | '"' :: ':' :: afterColon =>
         (match parseVal fuel afterColon with
          | some (v, ',' :: more) =>
            (match parseObj fuel more with
             | some (kvs, tail) => some ((String.mk k, v) :: kvs, tail)
             | none => none)
          | some (v, '}' :: tail) => some ([(String.mk k, v)], tail)
          | _ => none)
       | _ => none)
    | _ => none

end

/-- A `json.dumps`-like stand-in over bytes (UTF-8 code points). -/
def jsonDumpsBytes (v : PyVal) : List Nat :=
  (jsonDumps v).map Char.toNat

/-- A `json.loads`-like stand-in over bytes. -/
def jsonLoadsBytes (bs : List Nat) : Option PyVal :=
  let cs := bs.map Char.ofNat
  match parseVal (cs.length + 1) cs with
  | some (v, []) => some v
  | _ => none

/-- A stand-in for `zlib.compress` used only to instantiate the codec
parameters in witnesses: prefix the payload with its length. -/
def lenTagCompress (bs : List Nat) : List Nat :=
  bs.length :: bs

/-- The matching stand-in for `zlib.decompress`. -/
def lenTagDecompress : List Nat → Option (List Nat)
  | n :: rest => if rest.length = n then some rest else none
  | [] => none

/-- The color value `new_idea` gives a node created with no explicit
color: the parent's `color` when present and truthy, else `"blue0"`
(the `or`-chain at mindly.py:194-198). -/
def inheritedColor (parent : PyVal) : PyVal :=
  match parent.get? "color" with
  | some v => if pyTruthy v then v else .str "blue0"
  | none => .str "blue0"

/-- Likewise for `colorThemeType`, defaulting to `0`
(mindly.py:199-203). -/
def inheritedCTT (parent : PyVal) : PyVal :=
  match parent.get? "colorThemeType" with
  | some v => if pyTruthy v then v else .int 0
  | none => .int 0

/-- The `itemCount` of proxy record `i` of the in-memory index payload,
when everything has the expected shape. -/
def proxyItemCountAt (fd : List (String × PyVal)) (i : Nat) : Option Int :=
  match alistGet fd "mindly.index" with
  | some index =>
    match index.get? "proxies" with
    | some (.list ps) =>
      match ps[i]? with
      | some p =>
        match p.get? "itemCount" with
        | some (.int n) => some n
        | _ => none
      | none => none
    | _ => none
  | none => none

/-! ### Basic lemmas about the dict and `Except` primitives -/

theorem bind_ok_iff {ε α β : Type} (x : Except ε α) (f : α → Except ε β)
    (b : β) : (x >>= f) = .ok b ↔ ∃ a, x = .ok a ∧ f a = .ok b := by
  cases x <;> simp [Except.bind, Bind.bind]

theorem alistGet_set_self {β : Type} (l : List (String × β)) (k : String)
    (v : β) : alistGet (alistSet l k v) k = some v := by
  induction l with
  | nil => simp [alistSet, alistGet]
  | cons kv rest ih =>
    by_cases h : kv.1 = k
    · simp [alistSet, alistGet, h]
    · simp [alistSet, alistGet, h, ih]

theorem alistGet_set_ne {β : Type} (l : List (String × β)) (k k' : String)
    (v : β) (h : k' ≠ k) :
    alistGet (alistSet l k v) k' = alistGet l k' := by
  induction l with
  | nil =>
    simp only [alistSet, alistGet]
    rw [if_neg (fun hh : k = k' => h hh.symm)]
  | cons kv rest ih =>
    simp only [alistSet]
    by_cases hk : kv.1 = k
    · subst hk
      rw [if_pos rfl]
      simp only [alistGet]
      rw [if_neg (fun hh : kv.1 = k' => h hh.symm),
          if_neg (fun hh : kv.1 = k' => h hh.symm)]
    · rw [if_neg hk]
      simp only [alistGet]
      by_cases hk' : kv.1 = k'
      · rw [if_pos hk', if_pos hk']
      · rw [if_neg hk', if_neg hk', ih]

theorem pyUpdate_cons {β : Type} (l : List (String × β)) (kv : String × β)
    (u : List (String × β)) :
    pyUpdate l (kv :: u) = pyUpdate (alistSet l kv.1 kv.2) u := by
  simp [pyUpdate, List.foldl]

theorem alistGet_pyUpdate_notmem {β : Type} (u l : List (String × β))
    (k : String) (h : k ∉ u.map (·.1)) :
    alistGet (pyUpdate l u) k = alistGet l k := by
  induction u generalizing l with
  | nil => simp [pyUpdate]
  | cons kv rest ih =>
    simp only [List.map, List.mem_cons] at h
    push_neg at h
    rw [pyUpdate_cons, ih _ h.2]
    exact alistGet_set_ne _ _ _ _ h.1

theorem alistGet_pyUpdate_const_mem {β : Type} (ks : List String)
    (l : List (String × β)) (c : β) (k : String) (h : k ∈ ks) :
    alistGet (pyUpdate l (ks.map (fun i => (i, c)))) k = some c := by
  induction ks generalizing l with
  | nil => cases h
  | cons k0 rest ih =>
    rw [List.map_cons, pyUpdate_cons]
    rcases List.mem_cons.mp h with h0 | hr
    · by_cases hmem : k ∈ rest
      · exact ih _ hmem
      · subst h0
        have : k ∉ (rest.map (fun i => (i, c))).map (·.1) := by
          simpa using hmem
        rw [alistGet_pyUpdate_notmem _ _ _ this]
        exact alistGet_set_self _ _ _
    · exact ih _ hr

theorem alistGetE_ok_iff {β : Type} (l : List (String × β)) (k : String)
    (v : β) : alistGetE l k = .ok v ↔ alistGet l k = some v := by
  unfold alistGetE
  cases alistGet l k <;> simp


theorem listIndexE_ok_iff (l : List String) (x : String) (i : Nat) :
    listIndexE l x = .ok i ↔ listIndex l x = some i := by
  unfold listIndexE
  cases listIndex l x <;> simp

/-! ### The load pipeline leaves `files_modified` untouched -/

theorem load_index_fm (st : Mindly) (disk : Disk) (st' : Mindly)
    (h : st._load_index disk = .ok st') :
    st'.files_modified = st.files_modified := by
  unfold Mindly._load_index at h
  simp only [bind, Except.bind] at h
  repeat' split at h
  all_goals first
    | (exact Except.noConfusion h)
    | (cases h; rfl)

theorem load_sections_loop_fm (secsList : List PyVal) :
    ∀ (st : Mindly) (secs : List (String × PyVal)) out,
    loadSectionsLoop st secs secsList = .ok out →
    out.1.files_modified = st.files_modified ∧
    out.1.filename_by_id = st.filename_by_id ∧
    out.1.file_data = st.file_data := by
  induction secsList with
  | nil =>
    intro st secs out h
    unfold loadSectionsLoop at h
    cases h
    exact ⟨rfl, rfl, rfl⟩
  | cons sect rest ih =>
    intro st secs out h
    unfold loadSectionsLoop at h
    simp only [bind, Except.bind] at h
    repeat' split at h
    all_goals first
      | (exact Except.noConfusion h)
      | (have hres := ih _ _ _ h; exact hres)

theorem load_sections_fm (st : Mindly) (st' : Mindly)
    (h : st._load_sections = .ok st') :
    st'.files_modified = st.files_modified ∧
    st'.filename_by_id = st.filename_by_id := by
  unfold Mindly._load_sections at h
  simp only [bind, Except.bind] at h
  repeat' split at h
  all_goals first
    | (exact Except.noConfusion h)
    | (rename_i out heq
       cases h
       have hres := load_sections_loop_fm _ _ _ _ heq
       exact ⟨hres.1, hres.2.1⟩)

theorem extract_fm (fuel : Nat) :
    (∀ (st : Mindly) node idp out,
      Mindly._extract_nodes fuel st node idp = .ok out →
      out.1.files_modified = st.files_modified)
    ∧ (∀ (st : Mindly) node_id idp acc l out,
      extractLoop fuel st node_id idp acc l = .ok out →
      out.1.files_modified = st.files_modified) := by
  induction fuel with
  | zero =>
    constructor
    · intro st node idp out h
      exact Except.noConfusion h
    · intro st node_id idp acc l out h
      cases l with
      | nil => cases h; rfl
      | cons x rest => exact Except.noConfusion h
  | succ fuel ih =>
    constructor
    · intro st node idp out h
      unfold Mindly._extract_nodes at h
      simp only [bind, Except.bind] at h
      repeat' split at h
      all_goals first
        | (exact Except.noConfusion h)
        | (cases h; rfl)
        | (have hres := ih.2 _ _ _ _ _ _ h; exact hres)
    · intro st node_id idp acc l out h
      cases l with
      | nil => cases h; rfl
      | cons x rest =>
        unfold extractLoop at h
        simp only [bind, Except.bind] at h
        repeat' split at h
        all_goals first
          | (exact Except.noConfusion h)
          | (rename_i hsub
             have h1 := ih.1 _ _ _ _ hsub
             have h2 := ih.2 _ _ _ _ _ _ h
             rw [h2, h1])

theorem load_ideas_fm (fuel : Nat) (st : Mindly) (disk : Disk)
    (filename : String) (idp : List String) out
    (h : st._load_ideas_document fuel disk filename idp = .ok out) :
    out.1.files_modified = st.files_modified := by
  unfold Mindly._load_ideas_document at h
  simp only [bind, Except.bind] at h
  repeat' split at h
  all_goals first
    | (exact Except.noConfusion h)
    | (rename_i hsub
       cases h
       have hres := (extract_fm fuel).1 _ _ _ _ hsub
       exact hres)

theorem load_docs_loop_fm (fuel : Nat) (disk : Disk) (proxies : List PyVal) :
    ∀ (st : Mindly) st',
    loadDocumentsLoop fuel disk st proxies = .ok st' →
    st'.files_modified = st.files_modified := by
  induction proxies with
  | nil =>
    intro st st' h
    cases h
    rfl
  | cons proxy rest ih =>
    intro st st' h
    unfold loadDocumentsLoop at h
    simp only [bind, Except.bind] at h
    repeat' split at h
    all_goals first
      | (exact Except.noConfusion h)
      | (rename_i hsub
         have h1 := load_ideas_fm _ _ _ _ _ _ hsub
         have h2 := ih _ _ h
         rw [h2]
         simpa using h1)

theorem load_documents_fm (fuel : Nat) (st : Mindly) (disk : Disk) (st' : Mindly)
    (h : st._load_documents fuel disk = .ok st') :
    st'.files_modified = st.files_modified := by
  unfold Mindly._load_documents at h
  simp only [bind, Except.bind] at h
  repeat' split at h
  all_goals first
    | (exact Except.noConfusion h)
    | (exact load_docs_loop_fm _ _ _ _ _ h)

theorem load_files_fm (fuel : Nat) (st : Mindly) (disk : Disk) (st' : Mindly)
    (h : Mindly.load_files fuel st disk = .ok st') :
    st'.files_modified = st.files_modified := by
  unfold Mindly.load_files at h
  simp only [bind, Except.bind] at h
  repeat' split at h
  all_goals first
    | (exact Except.noConfusion h)
    | (rename_i x1 st2 hidx x2 st3 hsec
       have h1 := load_index_fm _ _ _ hidx
       have h2 := (load_sections_fm _ _ hsec).1
       have h3 := load_documents_fm _ _ _ _ h
       rw [h3, h2, h1]
       rfl)

/-! ### Claim theorems: C1, C3, C5, C10 -/

set_option maxRecDepth 16384 in
/-- Claim C1 (code bug): on the reachable dirty set
`["mindly.index", "f2.mndl"]` — the index flagged first by
`new_section`, then a new document file — `write` emits only the plain
JSON write of the index, skips the document file entirely, and leaves the
dirty set uncleared, because of the early `return` inside the index
branch (mindly.py:260). -/
theorem C1_write_early_return_skips_documents :
    (c1State.map fun st => st.files_modified) = .ok ["mindly.index", "f2.mndl"]
    ∧ ((c1State.bind Mindly.write).map
        (fun p => (p.2.map WriteOut.pathOf, p.1.files_modified)))
      = .ok (["/data/mindly.index"], ["mindly.index", "f2.mndl"]) :=
  ⟨rfl, rfl⟩

/-- Claim C3 (amended): `load_files` resets the forest and every index
to empty before repopulating, but it does *not* reset the dirty set:
`files_modified` is missing from `_reset_state` and survives every load
unchanged. -/
theorem C3_load_resets_all_but_the_dirty_set :
    (∀ st : Mindly,
      st._reset_state.file_data = [] ∧ st._reset_state.nodes = [] ∧
      st._reset_state.«structure» = [("__root", [])] ∧
      st._reset_state.proxy_filenames = [] ∧ st._reset_state.id_path = [] ∧
      st._reset_state.name_path = [("__root", [])] ∧
      st._reset_state.filename_by_id = [] ∧
      st._reset_state.files_modified = st.files_modified)
    ∧ (∀ (fuel : Nat) (st : Mindly) (disk : Disk) (st' : Mindly),
        Mindly.load_files fuel st disk = .ok st' →
        st'.files_modified = st.files_modified) :=
  ⟨fun _ => ⟨rfl, rfl, rfl, rfl, rfl, rfl, rfl, rfl⟩,
   fun fuel st disk st' h => load_files_fm fuel st disk st' h⟩

/-- Witness for C3's amended theorem at a concrete reload. -/
theorem C3_witness :
    ∃ st', Mindly.load_files 9 stDirty diskEmpty = .ok st'
      ∧ st'.files_modified = stDirty.files_modified := by
  obtain ⟨st', h⟩ : ∃ st', Mindly.load_files 9 stDirty diskEmpty = .ok st' :=
    ⟨_, rfl⟩
  exact ⟨st', h, C3_load_resets_all_but_the_dirty_set.2 9 stDirty diskEmpty st' h⟩

/-- Counterexample to C3 as stated: a reload with a stale dirty set
completes successfully and still reports `["x.mndl", "mindly.index"]`
dirty, while the claim requires the dirty set to be empty after every
load. -/
theorem C3_counterexample :
    (Mindly.load_files 9 stDirty diskEmpty).map (fun s => s.files_modified)
      = .ok ["x.mndl", "mindly.index"]
    ∧ (["x.mndl", "mindly.index"] : List String) ≠ [] :=
  ⟨rfl, by decide⟩

/-- Claim C5 (amended): `new_node` with a `parent_id` absent from the
forest raises Python's `KeyError` (from `self.name_path[parent_id]`,
mindly.py:54), not the library's `NoSuchNodeError`. -/
theorem C5_new_node_unknown_parent_raises_keyerror (st : Mindly)
    (parent_id text idea_type note color color_theme_type : String)
    (gid1 gid2 now mtime : String)
    (h : alistGet st.name_path parent_id = none) :
    st.new_node parent_id text idea_type note color color_theme_type
      gid1 gid2 now mtime = .error (.keyError parent_id) := by
  unfold Mindly.new_node
  simp only [bind, Except.bind, alistGetE, h]

/-- Witness for C5's amended theorem at a concrete state. -/
theorem C5_witness :
    Mindly.new_node stEmpty "missing" "X" "" "" "" "" "g1" "g2" "T" "T"
      = .error (.keyError "missing") :=
  C5_new_node_unknown_parent_raises_keyerror stEmpty "missing" "X" "" "" "" ""
    "g1" "g2" "T" "T" rfl

/-- Counterexample to C5 as stated: the error raised is `KeyError`,
which is not `NoSuchNodeError`. -/
theorem C5_counterexample :
    Mindly.new_node stEmpty "missing" "X" "" "" "" "" "g1" "g2" "T" "T"
      = .error (.keyError "missing")
    ∧ Err.keyError "missing" ≠ Err.noSuchNodeError :=
  ⟨rfl, by decide⟩

/-- Claim C10: looking up the empty name path does not raise — whenever
the only empty-path entry of `name_path` is the virtual root marker
(which `_reset_state` installs permanently as `'__root' ↦ []`), the
lookup returns `"__root"`; and right after `_reset_state` the marker
corresponds to no node in the forest. -/
theorem C10_empty_name_path_returns_virtual_root :
    (∀ st : Mindly,
      st.name_path.filter (fun kv => kv.2 == ([] : List String))
        = [("__root", [])] →
      st.get_node_id_by_name_path [] = .ok "__root")
    ∧ (∀ st : Mindly,
      st._reset_state.get_node_id_by_name_path [] = .ok "__root"
      ∧ alistGet st._reset_state.nodes "__root" = none
      ∧ alistGet st._reset_state.name_path "__root" = some []) := by
  constructor
  · intro st h
    unfold Mindly.get_node_id_by_name_path Mindly.get_name_path_matches
    rw [h]
    rfl
  · intro st
    exact ⟨rfl, rfl, rfl⟩

/-- Witness for C10 at a concrete loaded state. -/
theorem C10_witness :
    Mindly.get_node_id_by_name_path stEmpty [] = .ok "__root" :=
  C10_empty_name_path_returns_virtual_root.1 stEmpty rfl

/-! ### Concrete evaluation lemmas shared by witnesses -/

set_option maxRecDepth 16384 in
theorem loadSec_eval : Mindly.load_files 9 stEmpty diskSec = .ok stSec := rfl

set_option maxRecDepth 16384 in
theorem phaseLid_eval :
    Mindly._load_ideas_document 9 stB3 disk2 "f1.mndl" ["s1", "d1"]
      = .ok (stY, ns1) := rfl

/-! ### Claims C4, C6, C7 -/

set_option maxRecDepth 16384 in
/-- Counterexample to C4 as stated: loading a directory with one section
`s1` succeeds and registers `s1` in `id_path`, yet `filename_by_id` maps
it to nothing — not to `"mindly.index"` as the claim requires. -/
theorem C4_counterexample :
    (Mindly.load_files 9 stEmpty diskSec).map
        (fun s => (alistGet s.filename_by_id "s1", alistGet s.id_path "s1"))
      = .ok (none, some ["s1"])
    ∧ (none : Option String) ≠ some "mindly.index" :=
  ⟨rfl, by decide⟩

/-- Claim C4 (amended): after loading, `filename_by_id` maps every node
extracted from a document file to that document's filename, but
`_load_sections` registers no `filename_by_id` entry at all — Sections
read from the index are absent from it; only `new_section` installs the
Section ↦ `"mindly.index"` mapping. -/
theorem C4_filename_by_id_owner :
    (∀ (st st' : Mindly), st._load_sections = .ok st' →
       st'.filename_by_id = st.filename_by_id)
    ∧ (∀ (fuel : Nat) (st : Mindly) (disk : Disk) (filename : String)
         (idp : List String) out,
       st._load_ideas_document fuel disk filename idp = .ok out →
       ∀ id ∈ out.2.map (fun kv => kv.1),
         alistGet out.1.filename_by_id id = some filename)
    ∧ (∀ (st : Mindly) (section_id text : String) out,
       st.new_section section_id text = .ok out →
       alistGet out.1.filename_by_id section_id = some "mindly.index") := by
  refine ⟨fun st st' h => (load_sections_fm st st' h).2, ?_, ?_⟩
  · intro fuel st disk filename idp out h id hid
    unfold Mindly._load_ideas_document at h
    simp only [bind, Except.bind] at h
    repeat' split at h
    all_goals first
      | (exact Except.noConfusion h)
      | (cases h
         simp only at hid ⊢
         rw [show (fun kv : String × PyVal => (kv.1, filename))
               = ((fun i => (i, filename)) ∘ (fun kv : String × PyVal => kv.1))
             from rfl, ← List.map_map]
         exact alistGet_pyUpdate_const_mem _ _ _ _ hid)
  · intro st section_id text out h
    unfold Mindly.new_section at h
    simp only [bind, Except.bind] at h
    repeat' split at h
    all_goals first
      | (exact Except.noConfusion h)
      | (cases h
         exact alistGet_set_self _ _ _)

/-- Witness for C4's amended theorem at concrete runs. -/
theorem C4_witness :
    alistGet stY.filename_by_id "d1" = some "f1.mndl"
    ∧ (∃ out, Mindly.new_section stEmpty "s9" "Work2" = .ok out
        ∧ alistGet out.1.filename_by_id "s9" = some "mindly.index") := by
  constructor
  · have := C4_filename_by_id_owner.2.1 9 stB3 disk2 "f1.mndl" ["s1", "d1"]
      (stY, ns1) phaseLid_eval "d1" (by decide)
    exact this
  · obtain ⟨out, h⟩ : ∃ out, Mindly.new_section stEmpty "s9" "Work2" = .ok out :=
      ⟨_, rfl⟩
    exact ⟨out, h, C4_filename_by_id_owner.2.2 stEmpty "s9" "Work2" out h⟩

/-- Claim C6: `get_node_id_by_name_path` returns an identifier exactly
when exactly one `name_path` entry equals the query sequence
(element-wise, full sequence), raises `AmbiguousNamePath` exactly when
more than one entry matches, raises `NoSuchNodeError` exactly when none
does, and any returned identifier is one whose recorded ancestry-by-name
is the query itself. -/
theorem C6_name_path_lookup (st : Mindly) (q : List String) :
    (∀ i, i ∈ st.get_name_path_matches q ↔ ∃ p, (i, p) ∈ st.name_path ∧ p = q)
    ∧ ((∃ i, st.get_node_id_by_name_path q = .ok i)
        ↔ (st.name_path.filter (fun kv => kv.2 == q)).length = 1)
    ∧ (st.get_node_id_by_name_path q = .error .ambiguousNamePath
        ↔ 1 < (st.name_path.filter (fun kv => kv.2 == q)).length)
    ∧ (st.get_node_id_by_name_path q = .error .noSuchNodeError
        ↔ (st.name_path.filter (fun kv => kv.2 == q)).length = 0)
    ∧ (∀ i, st.get_node_id_by_name_path q = .ok i → (i, q) ∈ st.name_path) := by
  have hmem : ∀ i, i ∈ st.get_name_path_matches q
      ↔ ∃ p, (i, p) ∈ st.name_path ∧ p = q := by
    intro i
    show i ∈ (st.name_path.filter (fun kv => kv.2 == q)).map (fun kv => kv.1) ↔ _
    simp only [List.mem_map, List.mem_filter, beq_iff_eq]
    constructor
    · rintro ⟨⟨a, p⟩, ⟨hin, hpq⟩, rfl⟩
      exact ⟨p, hin, hpq⟩
    · rintro ⟨p, hin, hpq⟩
      exact ⟨(i, p), ⟨hin, hpq⟩, rfl⟩
  have hlen : (st.get_name_path_matches q).length
      = (st.name_path.filter (fun kv => kv.2 == q)).length :=
    List.length_map _ _
  have hlookup : st.get_node_id_by_name_path q
      = (if (st.get_name_path_matches q).length > 1
         then Except.error Err.ambiguousNamePath
         else match st.get_name_path_matches q with
           | [] => Except.error Err.noSuchNodeError
           | m :: _ => Except.ok m) := rfl
  refine ⟨hmem, ?_⟩
  rcases hms : st.get_name_path_matches q with _ | ⟨m, _ | ⟨m2, r⟩⟩
  · have hres : st.get_node_id_by_name_path q = .error .noSuchNodeError := by
      rw [hlookup, hms]
      rfl
    have hf : (st.name_path.filter (fun kv => kv.2 == q)).length = 0 := by
      rw [← hlen, hms]
      rfl
    rw [hres, hf]
    refine ⟨⟨by rintro ⟨i, hi⟩; exact Except.noConfusion hi, fun h => by omega⟩,
            ⟨fun h => by simp at h, fun h => by omega⟩,
            ⟨fun _ => rfl, fun _ => rfl⟩,
            fun i hi => Except.noConfusion hi⟩
  · have hres : st.get_node_id_by_name_path q = .ok m := by
      rw [hlookup, hms]
      rfl
    have hf : (st.name_path.filter (fun kv => kv.2 == q)).length = 1 := by
      rw [← hlen, hms]
      rfl
    rw [hres, hf]
    refine ⟨⟨fun _ => rfl, fun _ => ⟨m, rfl⟩⟩,
            ⟨fun h => Except.noConfusion h, fun h => by omega⟩,
            ⟨fun h => Except.noConfusion h, fun h => by omega⟩,
            ?_⟩
    intro i hi
    injection hi with h
    rw [← h]
    have hm : m ∈ st.get_name_path_matches q := by
      rw [hms]
      exact List.mem_singleton.mpr rfl
    obtain ⟨p, hin, rfl⟩ := (hmem m).mp hm
    exact hin
  · have hgt : (m :: m2 :: r).length > 1 := by
      simp only [List.length_cons]
      omega
    have hres : st.get_node_id_by_name_path q = .error .ambiguousNamePath := by
      rw [hlookup, hms, if_pos hgt]
    have hf : (st.name_path.filter (fun kv => kv.2 == q)).length = r.length + 2 := by
      rw [← hlen, hms]
      rfl
    rw [hres, hf]
    refine ⟨⟨by rintro ⟨i, hi⟩; exact Except.noConfusion hi, fun h => by omega⟩,
            ⟨fun _ => by omega, fun _ => rfl⟩,
            ⟨fun h => by simp at h, fun h => by omega⟩,
            fun i hi => Except.noConfusion hi⟩

/-- Witness for C6 at a concrete state and query. -/
theorem C6_witness :
    Mindly.get_node_id_by_name_path stSec ["Work"] = .ok "s1"
    ∧ (stSec.name_path.filter (fun kv => kv.2 == ["Work"])).length = 1 := by
  have hlen1 : (stSec.name_path.filter (fun kv => kv.2 == ["Work"])).length = 1 := by
    decide
  obtain ⟨i, hi⟩ := (C6_name_path_lookup stSec ["Work"]).2.1.mpr hlen1
  have hval : Mindly.get_node_id_by_name_path stSec ["Work"] = .ok "s1" := rfl
  exact ⟨hval, hlen1⟩

/-- Claim C7: the codec composition the repository builds around the
`json` and `zlib` libraries round-trips: given the libraries' own
round-trip contracts at the relevant values, decoding an encoded index
payload or an encoded (envelope-wrapped, compressed) document payload
returns the original value. -/
theorem C7_codec_round_trip
    (dumps : PyVal → List Nat) (loads : List Nat → Option PyVal)
    (compress : List Nat → List Nat) (decompress : List Nat → Option (List Nat))
    (p q : PyVal)
    (hidx : loads (dumps p) = some p)
    (hdoc : loads (dumps (wrapDocument q)) = some (wrapDocument q))
    (hz : decompress (compress (dumps (wrapDocument q)))
        = some (dumps (wrapDocument q))) :
    decode_index loads (encode_index dumps p) = some p
    ∧ decode_document loads decompress (encode_document dumps compress q) = some q := by
  constructor
  · exact hidx
  · unfold decode_document encode_document
    rw [hz]
    show (match loads (dumps (wrapDocument q)) with
          | some v => v.get? "ideaDocumentDataObject"
          | none => none) = some q
    rw [hdoc]
    rfl

set_option maxRecDepth 8192 in
/-- Witness for C7: instantiate the library parameters with a concrete
serializer/parser pair and a concrete invertible byte transform, at the
empty index payload and `disk2`'s document payload. -/
theorem C7_witness :
    decode_index jsonLoadsBytes (encode_index jsonDumpsBytes emptyIndexVal)
        = some emptyIndexVal
    ∧ decode_document jsonLoadsBytes lenTagDecompress
        (encode_document jsonDumpsBytes lenTagCompress docPayload1)
        = some docPayload1 :=
  C7_codec_round_trip jsonDumpsBytes jsonLoadsBytes lenTagCompress
    lenTagDecompress emptyIndexVal docPayload1 rfl rfl rfl

/-! ### Inversion helpers for the `PyVal` accessors -/

theorem getItem_ok (v : PyVal) (k : String) (x : PyVal)
    (h : v.getItem k = .ok x) : v.get? k = some x := by
  cases v <;> simp only [PyVal.getItem] at h
  case dict kvs =>
    cases hk : alistGet kvs k with
    | none => rw [hk] at h; exact Except.noConfusion h
    | some y =>
      rw [hk] at h
      injection h with h
      rw [← h]
      exact hk
  all_goals exact Except.noConfusion h

theorem asList_ok (v : PyVal) (xs : List PyVal) (h : v.asList = .ok xs) :
    v = .list xs := by
  cases v <;> simp only [PyVal.asList] at h
  case list ys => injection h with h; rw [h]
  all_goals exact Except.noConfusion h

theorem asInt_ok (v : PyVal) (n : Int) (h : v.asInt = .ok n) : v = .int n := by
  cases v <;> simp only [PyVal.asInt] at h
  case int m => injection h with h; rw [h]
  all_goals exact Except.noConfusion h

theorem asStr_ok (v : PyVal) (s : String) (h : v.asStr = .ok s) : v = .str s := by
  cases v <;> simp only [PyVal.asStr] at h
  case str t => injection h with h; rw [h]
  all_goals exact Except.noConfusion h

theorem setKey_ok (v : PyVal) (k : String) (x w : PyVal)
    (h : v.setKey k x = .ok w) :
    ∃ kvs, v = .dict kvs ∧ w = .dict (alistSet kvs k x) := by
  cases v <;> simp only [PyVal.setKey] at h
  case dict kvs =>
    injection h with h
    exact ⟨kvs, rfl, h.symm⟩
  all_goals exact Except.noConfusion h

theorem get?_of_setKey_ne (kvs : List (String × PyVal)) (k k' : String)
    (x : PyVal) (h : k' ≠ k) :
    (PyVal.dict (alistSet kvs k x)).get? k' = (PyVal.dict kvs).get? k' := by
  simp only [PyVal.get?]
  exact alistGet_set_ne _ _ _ _ h

/-! ### Inversion lemmas for `mark_modified` and the itemCount update -/

theorem mark_modified_frame (st : Mindly) (f m : String) (st' : Mindly)
    (h : st.mark_modified f m = .ok st') :
    st'.nodes = st.nodes ∧ st'.id_path = st.id_path ∧
    st'.name_path = st.name_path ∧ st'.filename_by_id = st.filename_by_id ∧
    st'.proxy_filenames = st.proxy_filenames ∧ st'.«structure» = st.«structure» := by
  unfold Mindly.mark_modified setProxyField at h
  simp only [bind, Except.bind] at h
  repeat' split at h
  all_goals first
    | (exact Except.noConfusion h)
    | (cases h; exact ⟨rfl, rfl, rfl, rfl, rfl, rfl⟩)

theorem incProxyItemCount_ok (fd : List (String × PyVal)) (pos : Nat)
    (fd' : List (String × PyVal)) (h : incProxyItemCount fd pos = .ok fd') :
    ∃ n, proxyItemCountAt fd pos = some n
      ∧ proxyItemCountAt fd' pos = some (n + 1) := by
  unfold incProxyItemCount at h
  simp only [bind, Except.bind] at h
  repeat' split at h
  all_goals try exact Except.noConfusion h
  rename_i xa index heqIdx xb proxies heqPx xc ps heqPs xd p heqP
    xe itemv heqItem xf n heqN xg p' heqP2 xh index' heqIdx2
  injection h with h
  rw [← h]
  rw [alistGetE_ok_iff] at heqIdx
  have hPx := getItem_ok _ _ _ heqPx
  have hPsE := asList_ok _ _ heqPs
  subst hPsE
  have hItem0 := getItem_ok _ _ _ heqItem
  have hIv := asInt_ok _ _ heqN
  subst hIv
  obtain ⟨kvsp, hpd, hp2v⟩ := setKey_ok _ _ _ _ heqP2
  obtain ⟨kvsi, hid, hi2v⟩ := setKey_ok _ _ _ _ heqIdx2
  have hlt : pos < ps.length := (List.getElem?_eq_some.mp heqP).1
  refine ⟨n, ?_, ?_⟩
  · simp only [proxyItemCountAt, heqIdx, hPx, heqP, hItem0]
  · have h1 : alistGet (alistSet fd "mindly.index" index') "mindly.index"
        = some index' := alistGet_set_self _ _ _
    have h2 : index'.get? "proxies" = some (.list (ps.set pos p')) := by
      rw [hi2v]
      simp only [PyVal.get?]
      exact alistGet_set_self _ _ _
    have h3 : (ps.set pos p')[pos]? = some p' :=
      List.getElem?_set_eq_of_lt _ hlt
    have h4 : p'.get? "itemCount" = some (.int (n + 1)) := by
      rw [hp2v]
      simp only [PyVal.get?]
      exact alistGet_set_self _ _ _
    simp only [proxyItemCountAt, h1, h2, h3, h4]

theorem mark_modified_itemCount (st : Mindly) (f m : String) (st' : Mindly)
    (i : Nat) (h : st.mark_modified f m = .ok st') :
    proxyItemCountAt st'.file_data i = proxyItemCountAt st.file_data i := by
  unfold Mindly.mark_modified setProxyField at h
  simp only [bind, Except.bind] at h
  repeat' split at h
  all_goals try exact Except.noConfusion h
  · cases h
    rfl
  · rename_i hne xa doc heqDoc xb doc2 heqDoc2 xc pos heqPos xd fd2 heqSPF
    cases h
    repeat' split at heqSPF
    all_goals try exact Except.noConfusion heqSPF
    rename_i xe index2 heqA xf proxies2 heqB xg ps2 heqC xh p heqD
      xi p3 heqE xj index3 heqF
    injection heqSPF with hfd2
    rw [← hfd2]
    obtain ⟨kvsi2, hidx2d, hidx3v⟩ := setKey_ok _ _ _ _ heqF
    obtain ⟨kvsp, hpd, hp3v⟩ := setKey_ok _ _ _ _ heqE
    rw [alistGetE_ok_iff,
        alistGet_set_ne _ _ _ _ (fun hh => hne hh.symm)] at heqA
    have hPx2 := getItem_ok _ _ _ heqB
    have hPs2 := asList_ok _ _ heqC
    subst hPs2
    have hlt : pos < ps2.length := (List.getElem?_eq_some.mp heqD).1
    have hL1 : alistGet (alistSet (alistSet st.file_data f doc2) "mindly.index" index3)
        "mindly.index" = some index3 := alistGet_set_self _ _ _
    have hL2 : index3.get? "proxies" = some (.list (ps2.set pos p3)) := by
      rw [hidx3v]
      simp only [PyVal.get?]
      exact alistGet_set_self _ _ _
    by_cases hip : i = pos
    · subst hip
      have hL3 : (ps2.set i p3)[i]? = some p3 := List.getElem?_set_eq_of_lt _ hlt
      have hL4 : p3.get? "itemCount" = p.get? "itemCount" := by
        rw [hp3v, hpd]
        simp only [PyVal.get?]
        exact alistGet_set_ne _ _ _ _ (by decide)
      simp only [proxyItemCountAt, hL1, hL2, hL3, hL4, heqA, hPx2, heqD]
    · have hL3 : (ps2.set pos p3)[i]? = ps2[i]? :=
        List.getElem?_set_ne (fun hh => hip hh.symm)
      simp only [proxyItemCountAt, hL1, hL2, hL3, heqA, hPx2]


/-- Claim C8: `new_idea(parent_id, text)` with no explicit fields, on an
existing parent inside a document, appends the new idea to the parent's
child list and to the forest, increments the owning document's proxy
`itemCount` by exactly one, extends the parent's ancestry-by-id with the
new identifier and its ancestry-by-name with `text`, maps the new node
to the parent's filename, and gives it the parent's color and
colorThemeType, falling back to `"blue0"` and `0` when the parent has
none. -/
theorem C8_new_idea_contract (st : Mindly)
    (parent_id text idea_id mtime : String) (st' : Mindly) (idea : PyVal)
    (hne : idea_id ≠ parent_id)
    (h : st.new_idea parent_id text "" "" "" "" idea_id mtime = .ok (st', idea)) :
    ∃ parent0 ks f i,
      alistGet st.nodes parent_id = some parent0
      ∧ (parent0.get? "ideas" = some (.list ks)
          ∨ (parent0.get? "ideas" = none ∧ ks = []))
      ∧ idea.get? "color" = some (inheritedColor parent0)
      ∧ idea.get? "colorThemeType" = some (inheritedCTT parent0)
      ∧ idea.get? "identifier" = some (.str idea_id)
      ∧ idea.get? "text" = some (.str text)
      ∧ alistGet st'.nodes idea_id = some idea
      ∧ (∃ parentNew, alistGet st'.nodes parent_id = some parentNew
          ∧ parentNew.get? "ideas" = some (.list (ks ++ [idea])))
      ∧ alistGet st.filename_by_id parent_id = some f
      ∧ alistGet st'.filename_by_id idea_id = some f
      ∧ listIndex st.proxy_filenames f = some i
      ∧ (∃ n, proxyItemCountAt st.file_data i = some n
          ∧ proxyItemCountAt st'.file_data i = some (n + 1))
      ∧ (∃ pp, alistGet st.id_path parent_id = some pp
          ∧ alistGet st'.id_path idea_id = some (pp ++ [idea_id]))
      ∧ (∃ pn, alistGet st.name_path parent_id = some pn
          ∧ alistGet st'.name_path idea_id = some (pn ++ [text])) := by
  unfold Mindly.new_idea at h
  rw [bind_ok_iff] at h
  obtain ⟨parent0, hp0, h⟩ := h
  rw [alistGetE_ok_iff] at hp0
  by_cases hkey : parent0.hasKey "ideas" = true
  · rw [if_pos hkey] at h
    simp only [bind_ok_iff] at h
    obtain ⟨y, hy, cur, hcur, curList, hcl, parent2, hp2, filename, hfn, i0,
      heqIdxE, fd, hfd, filename2, hfn2, st5, hmk, pp, hpp, pn, hpn, hfin⟩ := h
    injection hy with hy2
    subst hy2
    rw [alistGetE_ok_iff] at hfn
    have heqIdx := (listIndexE_ok_iff _ _ _).mp heqIdxE
    · injection hfin with hfin
      injection hfin with hst hid
      have hcurv := asList_ok _ _ hcl
      subst hcurv
      have hframe := mark_modified_frame _ _ _ _ hmk
      obtain ⟨kvs1, hp1d, hp2v⟩ := setKey_ok _ _ _ _ hp2
      obtain ⟨n, hbase, hstep⟩ := incProxyItemCount_ok _ _ _ hfd
      have hmic := mark_modified_itemCount _ _ _ _ i0 hmk
      rw [alistGetE_ok_iff] at hpp hpn
      refine ⟨parent0, curList, filename, i0, hp0,
        Or.inl (getItem_ok _ _ _ hcur), ?_, ?_, ?_, ?_, ?_, ?_, hfn, ?_, heqIdx,
        ⟨n, hbase, ?_⟩, ⟨pp, ?_, ?_⟩, ⟨pn, ?_, ?_⟩⟩
      · rw [← hid]
        rfl
      · rw [← hid]
        rfl
      · rw [← hid]
        rfl
      · rw [← hid]
        rfl
      · rw [← hst]
        show alistGet st5.nodes idea_id = some idea
        rw [hframe.1, ← hid]
        exact alistGet_set_self _ _ _
      · refine ⟨parent2, ?_, ?_⟩
        · rw [← hst]
          show alistGet st5.nodes parent_id = some parent2
          rw [hframe.1]
          show alistGet (alistSet (alistSet (alistSet st.nodes parent_id parent0)
            parent_id parent2) idea_id _) parent_id = some parent2
          rw [alistGet_set_ne _ _ _ _ (Ne.symm hne)]
          exact alistGet_set_self _ _ _
        · rw [hp2v, ← hid]
          simp only [PyVal.get?]
          exact alistGet_set_self _ _ _
      · rw [← hst]
        show alistGet (alistSet st5.filename_by_id idea_id filename) idea_id
          = some filename
        exact alistGet_set_self _ _ _
      · rw [← hst]
        show proxyItemCountAt st5.file_data i0 = some (n + 1)
        rw [hmic]
        exact hstep
      · have := hpp
        rw [hframe.2.1] at this
        exact this
      · rw [← hst]
        show alistGet (alistSet st5.id_path idea_id (pp ++ [idea_id])) idea_id
          = some (pp ++ [idea_id])
        exact alistGet_set_self _ _ _
      · have := hpn
        rw [hframe.2.2.1] at this
        exact this
      · rw [← hst]
        show alistGet (alistSet st5.name_path idea_id (pn ++ [text])) idea_id
          = some (pn ++ [text])
        exact alistGet_set_self _ _ _
  · rw [if_neg hkey] at h
    simp only [bind_ok_iff] at h
    obtain ⟨parent1, hp1, cur, hcur, curList, hcl, parent2, hp2, filename, hfn, i0,
      heqIdxE, fd, hfd, filename2, hfn2, st5, hmk, pp, hpp, pn, hpn, hfin⟩ := h
    rw [alistGetE_ok_iff] at hfn
    have heqIdx := (listIndexE_ok_iff _ _ _).mp heqIdxE
    obtain ⟨kvs0, hp0d, hp1v⟩ := setKey_ok _ _ _ _ hp1
    have hnone : parent0.get? "ideas" = none := by
      unfold PyVal.hasKey at hkey
      cases hgi : parent0.get? "ideas" with
      | none => rfl
      | some w => rw [hgi] at hkey; simp at hkey
    have hcurval : cur = .list [] := by
      have h1 := getItem_ok _ _ _ hcur
      rw [hp1v] at h1
      simp only [PyVal.get?] at h1
      rw [alistGet_set_self] at h1
      injection h1 with h1
      exact h1.symm
    have hcl0 : curList = [] := by
      have h2 := asList_ok _ _ hcl
      rw [hcurval] at h2
      injection h2 with h2
      exact h2.symm
    subst hcl0
    have hc : parent1.get? "color" = parent0.get? "color" := by
      rw [hp1v, hp0d]
      exact get?_of_setKey_ne _ _ _ _ (by decide)
    have hct : parent1.get? "colorThemeType" = parent0.get? "colorThemeType" := by
      rw [hp1v, hp0d]
      exact get?_of_setKey_ne _ _ _ _ (by decide)
    have hIC : inheritedColor parent1 = inheritedColor parent0 := by
      unfold inheritedColor
      rw [hc]
    have hICT : inheritedCTT parent1 = inheritedCTT parent0 := by
      unfold inheritedCTT
      rw [hct]
    · injection hfin with hfin
      injection hfin with hst hid
      have hframe := mark_modified_frame _ _ _ _ hmk
      obtain ⟨kvs1, hp1d, hp2v⟩ := setKey_ok _ _ _ _ hp2
      obtain ⟨n, hbase, hstep⟩ := incProxyItemCount_ok _ _ _ hfd
      have hmic := mark_modified_itemCount _ _ _ _ i0 hmk
      rw [alistGetE_ok_iff] at hpp hpn
      refine ⟨parent0, [], filename, i0, hp0,
        Or.inr ⟨hnone, rfl⟩, ?_, ?_, ?_, ?_, ?_, ?_, hfn, ?_, heqIdx,
        ⟨n, hbase, ?_⟩, ⟨pp, ?_, ?_⟩, ⟨pn, ?_, ?_⟩⟩
      · rw [← hid, ← hIC]
        rfl
      · rw [← hid, ← hICT]
        rfl
      · rw [← hid]
        rfl
      · rw [← hid]
        rfl
      · rw [← hst]
        show alistGet st5.nodes idea_id = some idea
        rw [hframe.1, ← hid]
        exact alistGet_set_self _ _ _
      · refine ⟨parent2, ?_, ?_⟩
        · rw [← hst]
          show alistGet st5.nodes parent_id = some parent2
          rw [hframe.1]
          show alistGet (alistSet (alistSet (alistSet st.nodes parent_id parent1)
            parent_id parent2) idea_id _) parent_id = some parent2
          rw [alistGet_set_ne _ _ _ _ (Ne.symm hne)]
          exact alistGet_set_self _ _ _
        · rw [hp2v, ← hid]
          simp only [PyVal.get?]
          exact alistGet_set_self _ _ _
      · rw [← hst]
        show alistGet (alistSet st5.filename_by_id idea_id filename) idea_id
          = some filename
        exact alistGet_set_self _ _ _
      · rw [← hst]
        show proxyItemCountAt st5.file_data i0 = some (n + 1)
        rw [hmic]
        exact hstep
      · have := hpp
        rw [hframe.2.1] at this
        exact this
      · rw [← hst]
        show alistGet (alistSet st5.id_path idea_id (pp ++ [idea_id])) idea_id
          = some (pp ++ [idea_id])
        exact alistGet_set_self _ _ _
      · have := hpn
        rw [hframe.2.2.1] at this
        exact this
      · rw [← hst]
        show alistGet (alistSet st5.name_path idea_id (pn ++ [text])) idea_id
          = some (pn ++ [text])
        exact alistGet_set_self _ _ _

set_option maxRecDepth 16384 in
/-- Witness for C8 at a concrete loaded-document state. -/
theorem C8_witness : ∃ st' idea,
    Mindly.new_idea stL "d1" "Detail2" "" "" "" "" "i2" "T9" = .ok (st', idea)
    ∧ alistGet st'.name_path "i2" = some ["Work", "Notes", "Detail2"] := by
  obtain ⟨st', idea, h⟩ : ∃ a b,
      Mindly.new_idea stL "d1" "Detail2" "" "" "" "" "i2" "T9" = .ok (a, b) :=
    ⟨_, _, rfl⟩
  obtain ⟨p0, ks, f, i, hA, hB, hC, hD, hE, hF, hG, hH, hI, hJ, hK, hL, hM,
    ⟨pn, hpn1, hpn2⟩⟩ :=
    C8_new_idea_contract stL "d1" "Detail2" "i2" "T9" st' idea (by decide) h
  refine ⟨st', idea, h, ?_⟩
  have hpnv : pn = ["Work", "Notes"] := by
    have hv : alistGet stL.name_path "d1" = some ["Work", "Notes"] := rfl
    rw [hv] at hpn1
    injection hpn1 with h2
    exact h2.symm
  rw [hpnv] at hpn2
  exact hpn2

/-! ### Small facts about the collectors and list utilities -/

theorem contains_false_iff (l : List String) (x : String) :
    l.contains x = false ↔ x ∉ l := by simp

theorem contains_true_iff (l : List String) (x : String) :
    l.contains x = true ↔ x ∈ l := by simp

theorem distinctB_nodup (l : List String) (h : distinctB l = true) : l.Nodup := by
  induction l with
  | nil => exact List.nodup_nil
  | cons x rest ih =>
    simp only [distinctB, Bool.and_eq_true, Bool.not_eq_true'] at h
    exact List.nodup_cons.mpr ⟨(contains_false_iff rest x).mp h.1, ih h.2⟩

theorem distinctB_append_left (a b : List String)
    (h : distinctB (a ++ b) = true) : distinctB a = true := by
  induction a with
  | nil => rfl
  | cons x rest ih =>
    simp only [List.cons_append, distinctB, Bool.and_eq_true, Bool.not_eq_true'] at h ⊢
    refine ⟨?_, ih h.2⟩
    have h1 := (contains_false_iff _ x).mp h.1
    refine (contains_false_iff rest x).mpr ?_
    intro hmem
    exact h1 (List.mem_append.mpr (Or.inl hmem))

theorem distinctB_append_right (a b : List String)
    (h : distinctB (a ++ b) = true) : distinctB b = true := by
  induction a with
  | nil => exact h
  | cons x rest ih =>
    simp only [List.cons_append, distinctB, Bool.and_eq_true] at h
    exact ih h.2

theorem distinctB_append_disjoint (a b : List String)
    (h : distinctB (a ++ b) = true) : ∀ x ∈ b, x ∉ a := by
  induction a with
  | nil => intro x _ hx; cases hx
  | cons y rest ih =>
    simp only [List.cons_append, distinctB, Bool.and_eq_true, Bool.not_eq_true'] at h
    intro x hxb hxa
    rcases List.mem_cons.mp hxa with hxy | hxr
    · subst hxy
      exact (contains_false_iff _ x).mp h.1 (List.mem_append.mpr (Or.inr hxb))
    · exact ih h.2 x hxb hxr

theorem not_contains_forall (l : List String) (x : String)
    (h : l.contains x = false) : x ∉ l :=
  (contains_false_iff l x).mp h

theorem negSecond_append_last (l : List String) (x a : String)
    (h : l.getLast? = some a) : negSecond (l ++ [x]) = .ok a := by
  unfold negSecond
  rw [List.reverse_append]
  simp only [List.reverse_cons, List.reverse_nil, List.nil_append, List.cons_append,
    List.singleton_append]
  rw [List.getLast?_eq_head?_reverse] at h
  cases hr : l.reverse with
  | nil => rw [hr] at h; exact Option.noConfusion h
  | cons y t =>
    rw [hr] at h
    injection h with h
    rw [h]

theorem negSecond_mem_dropLast (l : List String) (par : String)
    (h : negSecond l = .ok par) : par ∈ l.dropLast := by
  unfold negSecond at h
  cases hr : l.reverse with
  | nil => rw [hr] at h; exact Except.noConfusion h
  | cons c t =>
    cases t with
    | nil => rw [hr] at h; exact Except.noConfusion h
    | cons p t2 =>
      rw [hr] at h
      injection h with h
      have hl : l = (t2.reverse ++ [p]) ++ [c] := by
        have h2 := congrArg List.reverse hr
        rw [List.reverse_reverse] at h2
        rw [h2]
        simp
      rw [← h, hl, List.dropLast_concat]
      exact List.mem_append.mpr (Or.inr (List.mem_singleton.mpr rfl))

theorem mem_dropLast_or_last (l : List String) (a last : String)
    (hmem : a ∈ l) (hlast : l.getLast? = some last) :
    a ∈ l.dropLast ∨ a = last := by
  have hl := List.dropLast_append_getLast? last hlast
  rw [← hl] at hmem
  rcases List.mem_append.mp hmem with h | h
  · exact Or.inl h
  · exact Or.inr (List.mem_singleton.mp h)

theorem proxySectionsOf_mem (ps : List PyVal) (psecs : List String)
    (h : proxySectionsOf ps = some psecs) :
    ∀ p ∈ ps, ∀ s, proxySectionOf p = some s → s ∈ psecs := by
  induction ps generalizing psecs with
  | nil => intro p hp; cases hp
  | cons q rest ih =>
    unfold proxySectionsOf at h
    cases hq : proxySectionOf q with
    | none => rw [hq] at h; exact Option.noConfusion h
    | some s0 =>
      rw [hq] at h
      cases hrest : proxySectionsOf rest with
      | none => rw [hrest] at h; exact Option.noConfusion h
      | some prest =>
        rw [hrest] at h
        simp only [Option.map_some] at h
        injection h with h
        subst h
        intro p hp s hs
        rcases List.mem_cons.mp hp with hpq | hpr
        · subst hpq
          rw [hq] at hs
          injection hs with hs
          rw [← hs]
          exact List.mem_cons_self _ _
        · exact List.mem_cons_of_mem _ (ih prest hrest p hpr s hs)

theorem alistGet_set_isSome {β : Type} (l : List (String × β)) (k a : String)
    (v : β) (h : (alistGet l a).isSome = true) :
    (alistGet (alistSet l k v) a).isSome = true := by
  by_cases hak : a = k
  · subst hak; rw [alistGet_set_self]; rfl
  · rw [alistGet_set_ne l k a v hak]; exact h

theorem get?_mem_of_some (l : List String) (i : Nat) (a : String)
    (h : l.get? i = some a) : a ∈ l := by
  rw [List.get?_eq_getElem?] at h
  obtain ⟨hlt, he⟩ := List.getElem?_eq_some_iff.mp h
  exact he ▸ List.getElem_mem hlt

theorem get?_lt_of_some (l : List String) (i : Nat) (a : String)
    (h : l.get? i = some a) : i < l.length := by
  rw [List.get?_eq_getElem?] at h
  exact (List.getElem?_eq_some_iff.mp h).1

theorem dropLast_get? (l : List String) (i : Nat) (h : i < l.length - 1) :
    l.dropLast.get? i = l.get? i := by
  rw [List.dropLast_eq_take, List.get?_eq_getElem?, List.get?_eq_getElem?,
    List.getElem?_take, if_pos h]

theorem register_invariants (st st2 : Mindly) (node_id text : String)
    (idp pnames : List String)
    (h2i : st2.id_path = alistSet st.id_path node_id idp)
    (h2n : st2.name_path = alistSet st.name_path node_id (pnames ++ [text]))
    (h2s : st2.«structure» = st.«structure»)
    (hfresh : alistGet st.id_path node_id = none)
    (hlen2 : 2 ≤ idp.length)
    (hlast : idp.getLast? = some node_id)
    (hpn : ∃ par, negSecond idp = .ok par ∧
        alistGet st.id_path par = some idp.dropLast ∧
        alistGet st.name_path par = some pnames ∧
        pnames.length + 1 = idp.length ∧
        ∃ l, alistGet st.«structure» par = some l ∧ node_id ∈ l)
    (hL : LenInv st) (hS : StructInv st) (hD : StructDom st) (hP : PosInv st) :
    LenInv st2 ∧ StructInv st2 ∧ StructDom st2 ∧ PosInv st2 := by
  obtain ⟨par, hneg, hpid, hpname, hplen, l, hsl, hmem⟩ := hpn
  refine ⟨?_, ?_, ?_, ?_⟩
  · -- LenInv
    intro id p hp
    rw [h2i] at hp
    by_cases hid : id = node_id
    · subst hid
      rw [alistGet_set_self] at hp
      injection hp with hp
      refine ⟨pnames ++ [text], ?_, ?_⟩
      · rw [h2n, alistGet_set_self]
      · rw [← hp]
        simp only [List.length_append, List.length_cons, List.length_nil]
        omega
    · rw [alistGet_set_ne _ _ _ _ hid] at hp
      obtain ⟨q, hq, hql⟩ := hL id p hp
      exact ⟨q, by rw [h2n, alistGet_set_ne _ _ _ _ hid]; exact hq, hql⟩
  · -- StructInv
    intro id p hp
    rw [h2i] at hp
    rw [h2s]
    by_cases hid : id = node_id
    · subst hid
      rw [alistGet_set_self] at hp
      injection hp with hp
      subst hp
      constructor
      · intro h1; omega
      · intro _; exact ⟨par, l, hneg, hsl, hmem⟩
    · rw [alistGet_set_ne _ _ _ _ hid] at hp
      exact hS id p hp
  · -- StructDom
    intro k hk
    rw [h2s] at hk
    rcases hD k hk with h | h
    · exact Or.inl h
    · right; rw [h2i]; exact alistGet_set_isSome _ _ _ _ h
  · -- PosInv
    intro id p hp q hq i a ha
    rw [h2i] at hp
    rw [h2n] at hq
    by_cases hid : id = node_id
    · rw [hid] at hp hq
      rw [alistGet_set_self] at hp hq
      injection hp with hp
      injection hq with hq
      rw [← hp] at ha
      rw [← hp, ← hq]
      have hilt : i < idp.length := get?_lt_of_some idp i a ha
      by_cases hi : i + 1 = idp.length
      · have ha2 : idp.getLast? = some a := by
          rw [List.get?_eq_getElem?] at ha
          rw [List.getLast?_eq_getElem?, ← ha]
          congr 1
          omega
        rw [hlast] at ha2
        injection ha2 with ha2
        rw [← ha2]
        constructor
        · rw [h2i, alistGet_set_self, hi, List.take_length]
        · rw [h2n, alistGet_set_self]
          have hlq : (pnames ++ [text]).length = i + 1 := by
            simp only [List.length_append, List.length_cons, List.length_nil]
            omega
          rw [← hlq, List.take_length]
      · have hil : i < idp.length - 1 := by omega
        have hda : idp.dropLast.get? i = some a := by
          rw [dropLast_get? idp i hil]; exact ha
        obtain ⟨h1, h2⟩ := hP par idp.dropLast hpid pnames hpname i a hda
        have hane : a ≠ node_id := by
          intro he
          rw [he, hfresh] at h1
          exact Option.noConfusion h1
        have htk : idp.dropLast.take (i + 1) = idp.take (i + 1) := by
          rw [List.dropLast_eq_take, List.take_take, min_eq_left (by omega)]
        have htq : (pnames ++ [text]).take (i + 1) = pnames.take (i + 1) := by
          rw [List.take_append_of_le_length (by omega)]
        rw [htk] at h1
        constructor
        · rw [h2i, alistGet_set_ne _ _ _ _ hane]; exact h1
        · rw [h2n, alistGet_set_ne _ _ _ _ hane, htq]; exact h2
    · rw [alistGet_set_ne _ _ _ _ hid] at hp
      rw [alistGet_set_ne _ _ _ _ hid] at hq
      obtain ⟨h1, h2⟩ := hP id p hp q hq i a ha
      have hane : a ≠ node_id := by
        intro he
        rw [he, hfresh] at h1
        exact Option.noConfusion h1
      exact ⟨by rw [h2i, alistGet_set_ne _ _ _ _ hane]; exact h1,
             by rw [h2n, alistGet_set_ne _ _ _ _ hane]; exact h2⟩

theorem reset_invariants (st st3 : Mindly) (node_id : String)
    (h3i : st3.id_path = st.id_path)
    (h3n : st3.name_path = st.name_path)
    (h3s : st3.«structure» = alistSet st.«structure» node_id [])
    (hreg : (alistGet st.id_path node_id).isSome = true)
    (hnone : alistGet st.«structure» node_id = none)
    (hnr : node_id ≠ "__root")
    (hL : LenInv st) (hS : StructInv st) (hD : StructDom st) (hP : PosInv st) :
    LenInv st3 ∧ StructInv st3 ∧ StructDom st3 ∧ PosInv st3 := by
  refine ⟨?_, ?_, ?_, ?_⟩
  · intro id p hp
    rw [h3i] at hp
    obtain ⟨q, hq, hql⟩ := hL id p hp
    exact ⟨q, by rw [h3n]; exact hq, hql⟩
  · intro id p hp
    rw [h3i] at hp
    rw [h3s]
    obtain ⟨c1, c2⟩ := hS id p hp
    constructor
    · intro h1
      obtain ⟨l, hl, hm⟩ := c1 h1
      refine ⟨l, ?_, hm⟩
      rw [alistGet_set_ne _ _ _ _ (fun he => hnr he.symm)]
      exact hl
    · intro h2
      obtain ⟨par, l, hneg, hl, hm⟩ := c2 h2
      have hpne : par ≠ node_id := by
        intro he
        rw [he, hnone] at hl
        exact Option.noConfusion hl
      exact ⟨par, l, hneg, by rw [alistGet_set_ne _ _ _ _ hpne]; exact hl, hm⟩
  · intro k hk
    rw [h3s] at hk
    by_cases hkn : k = node_id
    · right; rw [h3i, hkn]; exact hreg
    · rw [alistGet_set_ne _ _ _ _ hkn] at hk
      rcases hD k hk with h | h
      · exact Or.inl h
      · right; rw [h3i]; exact h
  · intro id p hp q hq i a ha
    rw [h3i] at hp
    rw [h3n] at hq
    obtain ⟨h1, h2⟩ := hP id p hp q hq i a ha
    exact ⟨by rw [h3i]; exact h1, by rw [h3n]; exact h2⟩

theorem append_invariants (st st1 : Mindly) (key x : String) (cur : List String)
    (h1i : st1.id_path = st.id_path)
    (h1n : st1.name_path = st.name_path)
    (h1s : st1.«structure» = alistSet st.«structure» key (cur ++ [x]))
    (hcur : alistGet st.«structure» key = some cur)
    (hL : LenInv st) (hS : StructInv st) (hD : StructDom st) (hP : PosInv st) :
    LenInv st1 ∧ StructInv st1 ∧ StructDom st1 ∧ PosInv st1 := by
  refine ⟨?_, ?_, ?_, ?_⟩
  · intro id p hp
    rw [h1i] at hp
    obtain ⟨q, hq, hql⟩ := hL id p hp
    exact ⟨q, by rw [h1n]; exact hq, hql⟩
  · intro id p hp
    rw [h1i] at hp
    rw [h1s]
    obtain ⟨c1, c2⟩ := hS id p hp
    constructor
    · intro hl1
      obtain ⟨l, hl, hm⟩ := c1 hl1
      by_cases hrk : "__root" = key
      · rw [← hrk] at hcur
        rw [hcur] at hl
        injection hl with hl
        refine ⟨cur ++ [x], ?_, ?_⟩
        · rw [← hrk] at h1s ⊢
          rw [alistGet_set_self]
        · exact List.mem_append.mpr (Or.inl (hl ▸ hm))
      · exact ⟨l, by rw [alistGet_set_ne _ _ _ _ hrk]; exact hl, hm⟩
  -- the structure append keeps every parent's child list a superset
    · intro hl2
      obtain ⟨par, l, hneg, hl, hm⟩ := c2 hl2
      by_cases hpk : par = key
      · rw [hpk, hcur] at hl
        injection hl with hl
        refine ⟨par, cur ++ [x], hneg, ?_, ?_⟩
        · rw [hpk, alistGet_set_self]
        · exact List.mem_append.mpr (Or.inl (hl ▸ hm))
      · exact ⟨par, l, hneg, by rw [alistGet_set_ne _ _ _ _ hpk]; exact hl, hm⟩
  · intro k hk
    rw [h1s] at hk
    by_cases hkk : k = key
    · rw [hkk]
      rcases hD key (by rw [hcur]; rfl) with h | h
      · exact Or.inl h
      · right; rw [h1i]; exact h
    · rw [alistGet_set_ne _ _ _ _ hkk] at hk
      rcases hD k hk with h | h
      · exact Or.inl h
      · right; rw [h1i]; exact h
  · intro id p hp q hq i a ha
    rw [h1i] at hp
    rw [h1n] at hq
    obtain ⟨h1, h2⟩ := hP id p hp q hq i a ha
    exact ⟨by rw [h1i]; exact h1, by rw [h1n]; exact h2⟩

theorem register_section_invariants (st st3 : Mindly) (sid text : String)
    (rootCh : List String)
    (hroot : alistGet st.«structure» "__root" = some rootCh)
    (hfresh : alistGet st.id_path sid = none)
    (hnr : sid ≠ "__root")
    (h3i : st3.id_path = alistSet st.id_path sid [sid])
    (h3n : st3.name_path = alistSet st.name_path sid [text])
    (h3s : st3.«structure» =
      alistSet (alistSet st.«structure» "__root" (rootCh ++ [sid])) sid [])
    (hL : LenInv st) (hS : StructInv st) (hD : StructDom st) (hP : PosInv st) :
    LenInv st3 ∧ StructInv st3 ∧ StructDom st3 ∧ PosInv st3 := by
  have hsnone : alistGet st.«structure» sid = none := by
    cases hx : alistGet st.«structure» sid with
    | none => rfl
    | some l =>
      rcases hD sid (by rw [hx]; rfl) with h | h
      · exact absurd h hnr
      · rw [hfresh] at h; exact Bool.noConfusion h
  refine ⟨?_, ?_, ?_, ?_⟩
  · intro id p hp
    rw [h3i] at hp
    by_cases hid : id = sid
    · rw [hid, alistGet_set_self] at hp
      injection hp with hp
      refine ⟨[text], ?_, ?_⟩
      · rw [h3n, hid, alistGet_set_self]
      · rw [← hp]; rfl
    · rw [alistGet_set_ne _ _ _ _ hid] at hp
      obtain ⟨q, hq, hql⟩ := hL id p hp
      exact ⟨q, by rw [h3n, alistGet_set_ne _ _ _ _ hid]; exact hq, hql⟩
  · intro id p hp
    rw [h3i] at hp
    rw [h3s]
    by_cases hid : id = sid
    · rw [hid, alistGet_set_self] at hp
      injection hp with hp
      constructor
      · intro _
        refine ⟨rootCh ++ [sid], ?_, ?_⟩
        · rw [alistGet_set_ne _ _ _ _ (fun he => hnr he.symm), alistGet_set_self]
        · rw [hid]
          exact List.mem_append.mpr (Or.inr (List.mem_singleton.mpr rfl))
      · intro h2
        rw [← hp] at h2
        simp at h2
    · rw [alistGet_set_ne _ _ _ _ hid] at hp
      obtain ⟨c1, c2⟩ := hS id p hp
      constructor
      · intro h1
        obtain ⟨l, hl, hm⟩ := c1 h1
        rw [hroot] at hl
        injection hl with hl
        refine ⟨rootCh ++ [sid], ?_, ?_⟩
        · rw [alistGet_set_ne _ _ _ _ (fun he => hnr he.symm), alistGet_set_self]
        · exact List.mem_append.mpr (Or.inl (hl ▸ hm))
      · intro h2
        obtain ⟨par, l, hneg, hl, hm⟩ := c2 h2
        have hpns : par ≠ sid := by
          intro he
          rw [he, hsnone] at hl
          exact Option.noConfusion hl
        by_cases hpr : par = "__root"
        · rw [hpr, hroot] at hl
          injection hl with hl
          refine ⟨par, rootCh ++ [sid], hneg, ?_, ?_⟩
          · rw [alistGet_set_ne _ _ _ _ hpns, hpr, alistGet_set_self]
          · exact List.mem_append.mpr (Or.inl (hl ▸ hm))
        · exact ⟨par, l, hneg,
            by rw [alistGet_set_ne _ _ _ _ hpns, alistGet_set_ne _ _ _ _ hpr]; exact hl,
            hm⟩
  · intro k hk
    rw [h3s] at hk
    by_cases hks : k = sid
    · right; rw [h3i, hks, alistGet_set_self]; rfl
    · rw [alistGet_set_ne _ _ _ _ hks] at hk
      by_cases hkr : k = "__root"
      · exact Or.inl hkr
      · rw [alistGet_set_ne _ _ _ _ hkr] at hk
        rcases hD k hk with h | h
        · exact Or.inl h
        · right; rw [h3i]; exact alistGet_set_isSome _ _ _ _ h
  · intro id p hp q hq i a ha
    rw [h3i] at hp
    rw [h3n] at hq
    by_cases hid : id = sid
    · rw [hid, alistGet_set_self] at hp hq
      injection hp with hp
      injection hq with hq
      rw [← hp] at ha
      rw [← hp, ← hq]
      cases i with
      | zero =>
        simp only [List.get?] at ha
        injection ha with ha
        rw [← ha]
        constructor
        · rw [h3i]
          rw [← hid] at *
          rw [alistGet_set_self]
          rfl
        · rw [h3n]
          rw [alistGet_set_self]
          rfl
      | succ j =>
        simp only [List.get?] at ha
        exact Option.noConfusion ha
    · rw [alistGet_set_ne _ _ _ _ hid] at hp
      rw [alistGet_set_ne _ _ _ _ hid] at hq
      obtain ⟨h1, h2⟩ := hP id p hp q hq i a ha
      have hane : a ≠ sid := by
        intro he
        rw [he, hfresh] at h1
        exact Option.noConfusion h1
      exact ⟨by rw [h3i, alistGet_set_ne _ _ _ _ hane]; exact h1,
             by rw [h3n, alistGet_set_ne _ _ _ _ hane]; exact h2⟩

theorem getItem_of_get? (v : PyVal) (k : String) (x : PyVal)
    (h : v.get? k = some x) : v.getItem k = .ok x := by
  cases v with
  | dict kvs =>
    simp only [PyVal.get?] at h
    simp only [PyVal.getItem, h]
  | str s => exact Option.noConfusion h
  | int n => exact Option.noConfusion h
  | bool b => exact Option.noConfusion h
  | list xs => exact Option.noConfusion h

theorem ok_bind {ε α β : Type} (a : α) (f : α → Except ε β) :
    (Except.ok a : Except ε α) >>= f = f a := rfl

theorem obind_some_iff {α β : Type} (x : Option α) (f : α → Option β) (b : β) :
    (x >>= f) = some b ↔ ∃ a, x = some a ∧ f a = some b := by
  cases x <;> simp

theorem collectIds_head (fuel : Nat) (node : PyVal) (ids : List String)
    (i : String) (h : collectIds fuel node = some ids)
    (hg : node.get? "identifier" = some (.str i)) : ids.head? = some i := by
  cases fuel with
  | zero => simp [collectIds] at h
  | succ fuel =>
    cases hgv : node.get? "ideas" with
    | none =>
      simp only [collectIds, hg, hgv] at h
      injection h with h
      rw [← h]
      rfl
    | some v =>
      simp only [collectIds, hg, hgv] at h
      by_cases htr : pyTruthy v
      · rw [if_pos htr] at h
        cases v with
        | list xs =>
          change (collectIdsList fuel xs).map (i :: ·) = some ids at h
          cases hm : collectIdsList fuel xs with
          | none => rw [hm] at h; exact Option.noConfusion h
          | some cs =>
            rw [hm] at h
            injection h with h
            rw [← h]
            rfl
        | str s => exact Option.noConfusion h
        | int n => exact Option.noConfusion h
        | bool b => exact Option.noConfusion h
        | dict kvs => exact Option.noConfusion h
      · rw [if_neg htr] at h
        injection h with h
        rw [← h]
        rfl

set_option maxHeartbeats 1000000 in
theorem extract_master : ∀ fuel : Nat,
    (∀ st node idp st' ns ids,
      Mindly._extract_nodes fuel st node idp = .ok (st', ns) →
      collectIds fuel node = some ids →
      ids.Nodup →
      (∀ j ∈ ids, alistGet st.id_path j = none ∧ j ≠ "__root") →
      2 ≤ idp.length →
      (∀ a ∈ idp.dropLast, a = "__root" ∨ (alistGet st.id_path a).isSome = true) →
      (∀ hd, ids.head? = some hd → idp.getLast? = some hd) →
      (∀ par, negSecond idp = .ok par →
        alistGet st.id_path par = some idp.dropLast ∧
        (∀ q, alistGet st.name_path par = some q → q.length + 1 = idp.length) ∧
        (∀ hd, ids.head? = some hd →
          ∃ l, alistGet st.«structure» par = some l ∧ hd ∈ l)) →
      LenInv st → StructInv st → StructDom st → PosInv st →
      (LenInv st' ∧ StructInv st' ∧ StructDom st' ∧ PosInv st')
      ∧ (∀ k, k ∉ ids →
          alistGet st'.id_path k = alistGet st.id_path k ∧
          alistGet st'.name_path k = alistGet st.name_path k)
      ∧ (∀ k, (alistGet st'.id_path k).isSome = true →
          (alistGet st.id_path k).isSome = true ∨ k ∈ ids))
    ∧
    (∀ l st node_id idp acc st' ns cids,
      extractLoop fuel st node_id idp acc l = .ok (st', ns) →
      collectIdsList fuel l = some cids →
      cids.Nodup →
      (∀ j ∈ cids, alistGet st.id_path j = none ∧ j ≠ "__root") →
      (∀ a ∈ idp, a = "__root" ∨ (alistGet st.id_path a).isSome = true) →
      alistGet st.id_path node_id = some idp →
      (∀ q, alistGet st.name_path node_id = some q → q.length = idp.length) →
      idp.getLast? = some node_id →
      LenInv st → StructInv st → StructDom st → PosInv st →
      (LenInv st' ∧ StructInv st' ∧ StructDom st' ∧ PosInv st')
      ∧ (∀ k, k ∉ cids →
          alistGet st'.id_path k = alistGet st.id_path k ∧
          alistGet st'.name_path k = alistGet st.name_path k)
      ∧ (∀ k, (alistGet st'.id_path k).isSome = true →
          (alistGet st.id_path k).isSome = true ∨ k ∈ cids)) := by
  intro fuel
  induction fuel with
  | zero =>
    constructor
    · intro st node idp st' ns ids h
      exact absurd h (by simp [Mindly._extract_nodes])
    · intro l st node_id idp acc st' ns cids h hc hnd hfresh hanc hnid hq hlastn
        hL hS hD hP
      cases l with
      | nil =>
        simp only [extractLoop] at h
        injection h with h
        injection h with h1 h2
        simp only [collectIdsList] at hc
        injection hc with hc
        rw [← h1, ← hc]
        refine ⟨⟨hL, hS, hD, hP⟩, ?_, ?_⟩
        · intro k _; exact ⟨rfl, rfl⟩
        · intro k hk; exact Or.inl hk
      | cons x rest =>
        simp only [extractLoop] at h
        exact absurd h (by simp)
  | succ fuel ih =>
    obtain ⟨ihE, ihL⟩ := ih
    constructor
    · intro st node idp st' ns ids h hc hnd hfresh hlen2 hanc hlast hpar hL hS hD hP
      simp only [Mindly._extract_nodes, bind_ok_iff] at h
      obtain ⟨r1, hr1, node_id, hid2, parentKey, hpk, pnames, hpn, rt, hrt, text,
        htx, h⟩ := h
      have hgid : node.get? "identifier" = some (.str node_id) := by
        have h1 := getItem_ok _ _ _ hr1
        have h2 := asStr_ok _ _ hid2
        rw [h2] at h1
        exact h1
      have hhead : ids.head? = some node_id := collectIds_head _ _ _ _ hc hgid
      have hmemids : node_id ∈ ids := by
        cases ids with
        | nil => exact Option.noConfusion hhead
        | cons a t =>
          injection hhead with hh
          rw [← hh]
          exact List.mem_cons_self _ _
      have hlast2 : idp.getLast? = some node_id := hlast _ hhead
      obtain ⟨hpid, hqlen, hstr⟩ := hpar parentKey hpk
      obtain ⟨lpar, hslpar, hmempar⟩ := hstr node_id hhead
      have hpn' : alistGet st.name_path parentKey = some pnames :=
        (alistGetE_ok_iff _ _ _).mp hpn
      have hplen : pnames.length + 1 = idp.length := hqlen pnames hpn'
      have hfre := hfresh node_id hmemids
      have hregI := register_invariants st
        { st with id_path := alistSet st.id_path node_id idp,
                  name_path := alistSet st.name_path node_id (pnames ++ [text]) }
        node_id text idp pnames rfl rfl rfl hfre.1 hlen2 hlast2
        ⟨parentKey, hpk, hpid, hpn', hplen, lpar, hslpar, hmempar⟩ hL hS hD hP
      obtain ⟨hL2, hS2, hD2, hP2⟩ := hregI
      split at h
      · -- node.get? "ideas" = none: the run ends after the registration
        injection h with h
        injection h with hst hns
        refine ⟨?_, ?_, ?_⟩
        · rw [← hst]
          exact ⟨hL2, hS2, hD2, hP2⟩
        · intro k hk
          have hkni : k ≠ node_id := fun he => hk (he ▸ hmemids)
          rw [← hst]
          constructor
          · show alistGet (alistSet st.id_path node_id idp) k = alistGet st.id_path k
            exact alistGet_set_ne _ _ _ _ hkni
          · show alistGet (alistSet st.name_path node_id (pnames ++ [text])) k =
              alistGet st.name_path k
            exact alistGet_set_ne _ _ _ _ hkni
        · intro k hk
          rw [← hst] at hk
          by_cases hkn : k = node_id
          · exact Or.inr (hkn ▸ hmemids)
          · left
            have hk2 : (alistGet (alistSet st.id_path node_id idp) k).isSome = true := hk
            rw [alistGet_set_ne _ _ _ _ hkn] at hk2
            exact hk2
      · -- node.get? "ideas" = some v
        rename_i v hgv
        split at h
        · -- truthy: recurse over the child list
          rename_i htr
          simp only [bind_ok_iff] at h
          obtain ⟨xs, hxs, h⟩ := h
          have hv := asList_ok _ _ hxs
          subst hv
          simp only [collectIds, hgid, hgv, if_pos htr] at hc
          change (collectIdsList fuel xs).map (node_id :: ·) = some ids at hc
          cases hm : collectIdsList fuel xs with
          | none => rw [hm] at hc; exact Option.noConfusion hc
          | some cids =>
            rw [hm] at hc
            injection hc with hcids
            have hndc : cids.Nodup ∧ node_id ∉ cids := by
              rw [← hcids] at hnd
              exact ⟨hnd.of_cons, (List.nodup_cons.mp hnd).1⟩
            have hnone2 : alistGet st.«structure» node_id = none := by
              cases hx : alistGet st.«structure» node_id with
              | none => rfl
              | some l0 =>
                rcases hD node_id (by rw [hx]; rfl) with hr | hr
                · exact absurd hr hfre.2
                · rw [hfre.1] at hr; exact Bool.noConfusion hr
            have hresetI := reset_invariants
              { st with id_path := alistSet st.id_path node_id idp,
                        name_path := alistSet st.name_path node_id (pnames ++ [text]) }
              { st with id_path := alistSet st.id_path node_id idp,
                        name_path := alistSet st.name_path node_id (pnames ++ [text]),
                        «structure» := alistSet st.«structure» node_id [] }
              node_id rfl rfl rfl
              (by show (alistGet (alistSet st.id_path node_id idp) node_id).isSome = true
                  rw [alistGet_set_self]; rfl)
              hnone2 hfre.2 hL2 hS2 hD2 hP2
            obtain ⟨hL3, hS3, hD3, hP3⟩ := hresetI
            have hfresh3 : ∀ j ∈ cids,
                alistGet (alistSet st.id_path node_id idp) j = none ∧ j ≠ "__root" := by
              intro j hj
              have hjids : j ∈ ids := by
                rw [← hcids]; exact List.mem_cons_of_mem _ hj
              have hf := hfresh j hjids
              have hjn : j ≠ node_id := fun he => hndc.2 (he ▸ hj)
              exact ⟨by rw [alistGet_set_ne _ _ _ _ hjn]; exact hf.1, hf.2⟩
            have hanc3 : ∀ a ∈ idp, a = "__root" ∨
                (alistGet (alistSet st.id_path node_id idp) a).isSome = true := by
              intro a ha
              rcases mem_dropLast_or_last idp a node_id ha hlast2 with hd1 | he
              · rcases hanc a hd1 with hr | hr
                · exact Or.inl hr
                · exact Or.inr (alistGet_set_isSome _ _ _ _ hr)
              · right
                rw [he, alistGet_set_self]
                rfl
            have hnid3 : alistGet (alistSet st.id_path node_id idp) node_id = some idp :=
              alistGet_set_self _ _ _
            have hq3 : ∀ q,
                alistGet (alistSet st.name_path node_id (pnames ++ [text])) node_id =
                  some q → q.length = idp.length := by
              intro q hqq
              rw [alistGet_set_self] at hqq
              injection hqq with hqq
              rw [← hqq]
              simp only [List.length_append, List.length_cons, List.length_nil]
              omega
            have hloop := ihL _ _ _ _ _ _ _ _ h hm hndc.1 hfresh3 hanc3 hnid3 hq3
              hlast2 hL3 hS3 hD3 hP3
            obtain ⟨hinvF, hpresF, hgrowF⟩ := hloop
            refine ⟨hinvF, ?_, ?_⟩
            · intro k hk
              have hkni : k ≠ node_id := fun he => hk (he ▸ hmemids)
              have hkc : k ∉ cids := fun hm2 =>
                hk (by rw [← hcids]; exact List.mem_cons_of_mem _ hm2)
              obtain ⟨e1, e2⟩ := hpresF k hkc
              constructor
              · rw [e1]
                show alistGet (alistSet st.id_path node_id idp) k = alistGet st.id_path k
                exact alistGet_set_ne _ _ _ _ hkni
              · rw [e2]
                show alistGet (alistSet st.name_path node_id (pnames ++ [text])) k =
                  alistGet st.name_path k
                exact alistGet_set_ne _ _ _ _ hkni
            · intro k hk
              rcases hgrowF k hk with hs | hs
              · by_cases hkn : k = node_id
                · exact Or.inr (hkn ▸ hmemids)
                · left
                  have hk2 : (alistGet (alistSet st.id_path node_id idp) k).isSome = true := hs
                  rw [alistGet_set_ne _ _ _ _ hkn] at hk2
                  exact hk2
              · right
                rw [← hcids]
                exact List.mem_cons_of_mem _ hs
        · -- falsy ideas value: the run ends after the registration
          injection h with h
          injection h with hst hns
          refine ⟨?_, ?_, ?_⟩
          · rw [← hst]
            exact ⟨hL2, hS2, hD2, hP2⟩
          · intro k hk
            have hkni : k ≠ node_id := fun he => hk (he ▸ hmemids)
            rw [← hst]
            constructor
            · show alistGet (alistSet st.id_path node_id idp) k = alistGet st.id_path k
              exact alistGet_set_ne _ _ _ _ hkni
            · show alistGet (alistSet st.name_path node_id (pnames ++ [text])) k =
                alistGet st.name_path k
              exact alistGet_set_ne _ _ _ _ hkni
          · intro k hk
            rw [← hst] at hk
            by_cases hkn : k = node_id
            · exact Or.inr (hkn ▸ hmemids)
            · left
              have hk2 : (alistGet (alistSet st.id_path node_id idp) k).isSome = true := hk
              rw [alistGet_set_ne _ _ _ _ hkn] at hk2
              exact hk2
    · intro l st node_id idp acc st' ns cids h hc hnd hfresh hanc hnid hq hlastn
        hL hS hD hP
      cases l with
      | nil =>
        simp only [extractLoop] at h
        injection h with h
        injection h with h1 h2
        simp only [collectIdsList] at hc
        injection hc with hc
        rw [← h1, ← hc]
        refine ⟨⟨hL, hS, hD, hP⟩, ?_, ?_⟩
        · intro k _; exact ⟨rfl, rfl⟩
        · intro k hk; exact Or.inl hk
      | cons idea rest =>
        simp only [extractLoop, bind_ok_iff] at h
        obtain ⟨r1, hr1, cid, hcid, cur, hcur, r2, hr2, cid2, hcid2, pr, hpr, h⟩ := h
        obtain ⟨st2, sub⟩ := pr
        have hgc : idea.get? "identifier" = some (.str cid) := by
          have h1 := getItem_ok _ _ _ hr1
          have h2 := asStr_ok _ _ hcid
          rw [h2] at h1
          exact h1
        have hc2e : cid2 = cid := by
          have h1 := getItem_ok _ _ _ hr2
          rw [hgc] at h1
          injection h1 with h1
          rw [← h1] at hcid2
          have h2 := asStr_ok _ _ hcid2
          injection h2 with h2
          rw [h2]
        rw [hc2e] at hpr
        simp only [collectIdsList, obind_some_iff] at hc
        obtain ⟨cidsC, hcC, rids, hcR, hcapp⟩ := hc
        injection hcapp with hcapp
        have hheadC : cidsC.head? = some cid := collectIds_head fuel idea cidsC cid hcC hgc
        have hcur' : alistGet st.«structure» node_id = some cur :=
          (alistGetE_ok_iff _ _ _).mp hcur
        rw [← hcapp] at hnd
        have hndC : cidsC.Nodup := hnd.of_append_left
        have hndR : rids.Nodup := hnd.of_append_right
        have hdisj : ∀ x ∈ rids, x ∉ cidsC := by
          intro x hx hxc
          exact (List.disjoint_of_nodup_append hnd) hxc hx
        have hidplen : 1 ≤ idp.length := by
          cases idp with
          | nil => exact Option.noConfusion hlastn
          | cons a t => simp
        have happI := append_invariants st
          { st with «structure» := alistSet st.«structure» node_id (cur ++ [cid]) }
          node_id cid cur rfl rfl rfl hcur' hL hS hD hP
        obtain ⟨hL1, hS1, hD1, hP1⟩ := happI
        have hfreshC : ∀ j ∈ cidsC, alistGet st.id_path j = none ∧ j ≠ "__root" := by
          intro j hj
          exact hfresh j (by rw [← hcapp]; exact List.mem_append.mpr (Or.inl hj))
        have hlen2C : 2 ≤ (idp ++ [cid]).length := by
          simp only [List.length_append, List.length_cons, List.length_nil]
          omega
        have hancC : ∀ a ∈ (idp ++ [cid]).dropLast,
            a = "__root" ∨ (alistGet st.id_path a).isSome = true := by
          rw [List.dropLast_concat]
          exact hanc
        have hlastC : ∀ hd, cidsC.head? = some hd →
            (idp ++ [cid]).getLast? = some hd := by
          intro hd hh
          rw [hheadC] at hh
          injection hh with hh
          rw [← hh]
          exact List.getLast?_concat _
        have hnegc : negSecond (idp ++ [cid]) = .ok node_id :=
          negSecond_append_last idp cid node_id hlastn
        have hparC : ∀ par, negSecond (idp ++ [cid]) = .ok par →
            alistGet st.id_path par = some (idp ++ [cid]).dropLast ∧
            (∀ q2, alistGet st.name_path par = some q2 →
              q2.length + 1 = (idp ++ [cid]).length) ∧
            (∀ hd, cidsC.head? = some hd →
              ∃ lc, alistGet (alistSet st.«structure» node_id (cur ++ [cid]))
                  par = some lc ∧ hd ∈ lc) := by
          intro par hpar2
          rw [hnegc] at hpar2
          injection hpar2 with hpe
          rw [← hpe]
          refine ⟨?_, ?_, ?_⟩
          · rw [List.dropLast_concat]
            exact hnid
          · intro q2 hq2
            have := hq q2 hq2
            simp only [List.length_append, List.length_cons, List.length_nil]
            omega
          · intro hd hh
            rw [hheadC] at hh
            injection hh with hh
            refine ⟨cur ++ [cid], alistGet_set_self _ _ _, ?_⟩
            rw [← hh]
            exact List.mem_append.mpr (Or.inr (List.mem_singleton.mpr rfl))
        have hext := ihE _ _ _ _ _ _ hpr hcC hndC
          (fun j hj => hfreshC j hj)
          hlen2C hancC hlastC hparC hL1 hS1 hD1 hP1
        obtain ⟨⟨hLx, hSx, hDx, hPx⟩, hpresX, hgrowX⟩ := hext
        have hnodeNotC : node_id ∉ cidsC := by
          intro hm2
          have := (hfreshC node_id hm2).1
          rw [hnid] at this
          exact Option.noConfusion this
        obtain ⟨ei, en⟩ := hpresX node_id hnodeNotC
        have hfreshR : ∀ j ∈ rids, alistGet st2.id_path j = none ∧ j ≠ "__root" := by
          intro j hj
          have hf := hfresh j (by rw [← hcapp]; exact List.mem_append.mpr (Or.inr hj))
          have hjc : j ∉ cidsC := hdisj j hj
          obtain ⟨e1, e2⟩ := hpresX j hjc
          exact ⟨by rw [e1]; exact hf.1, hf.2⟩
        have hancR : ∀ a ∈ idp, a = "__root" ∨
            (alistGet st2.id_path a).isSome = true := by
          intro a ha
          rcases hanc a ha with hr | hr
          · exact Or.inl hr
          · right
            have hac : a ∉ cidsC := by
              intro hm2
              have := (hfreshC a hm2).1
              rw [this] at hr
              exact Bool.noConfusion hr
            obtain ⟨e1, _⟩ := hpresX a hac
            rw [e1]
            exact hr
        have hnidR : alistGet st2.id_path node_id = some idp := by
          rw [ei]
          exact hnid
        have hqR : ∀ q2, alistGet st2.name_path node_id = some q2 →
            q2.length = idp.length := by
          intro q2 hq2
          rw [en] at hq2
          exact hq q2 hq2
        have hloop := ihL _ _ _ _ _ _ _ _ h hcR hndR hfreshR hancR hnidR hqR
          hlastn hLx hSx hDx hPx
        obtain ⟨hinvF, hpresF, hgrowF⟩ := hloop
        refine ⟨hinvF, ?_, ?_⟩
        · intro k hk
          have hkC : k ∉ cidsC := fun hm2 =>
            hk (by rw [← hcapp]; exact List.mem_append.mpr (Or.inl hm2))
          have hkR : k ∉ rids := fun hm2 =>
            hk (by rw [← hcapp]; exact List.mem_append.mpr (Or.inr hm2))
          obtain ⟨f1, f2⟩ := hpresF k hkR
          obtain ⟨e1, e2⟩ := hpresX k hkC
          exact ⟨by rw [f1, e1], by rw [f2, e2]⟩
        · intro k hk
          rcases hgrowF k hk with hs | hs
          · rcases hgrowX k hs with hs2 | hs2
            · exact Or.inl hs2
            · right
              rw [← hcapp]
              exact List.mem_append.mpr (Or.inl hs2)
          · right
            rw [← hcapp]
            exact List.mem_append.mpr (Or.inr hs)

theorem sections_loop_master : ∀ (secsList : List PyVal) (st : Mindly)
    (secs : List (String × PyVal)) (out : Mindly × List (String × PyVal))
    (secIds : List String),
    loadSectionsLoop st secs secsList = .ok out →
    sectionIdsOf secsList = some secIds →
    secIds.Nodup →
    (∀ j ∈ secIds, alistGet st.id_path j = none ∧ j ≠ "__root") →
    LenInv st → StructInv st → StructDom st → PosInv st →
    (LenInv out.1 ∧ StructInv out.1 ∧ StructDom out.1 ∧ PosInv out.1)
    ∧ (∀ sid ∈ secIds, alistGet out.1.id_path sid = some [sid]
        ∧ ∃ t, alistGet out.1.name_path sid = some [t])
    ∧ (∀ k, k ∉ secIds →
        alistGet out.1.id_path k = alistGet st.id_path k ∧
        alistGet out.1.name_path k = alistGet st.name_path k)
    ∧ (∀ k, (alistGet out.1.id_path k).isSome = true →
        (alistGet st.id_path k).isSome = true ∨ k ∈ secIds)
    ∧ out.1.file_data = st.file_data := by
  intro secsList
  induction secsList with
  | nil =>
    intro st secs out secIds h hc hnd hfresh hL hS hD hP
    simp only [loadSectionsLoop] at h
    injection h with h
    simp only [sectionIdsOf] at hc
    injection hc with hc
    rw [← h, ← hc]
    refine ⟨⟨hL, hS, hD, hP⟩, ?_, ?_, ?_, rfl⟩
    · intro sid hsid; cases hsid
    · intro k _; exact ⟨rfl, rfl⟩
    · intro k hk; exact Or.inl hk
  | cons sect rest ih =>
    intro st secs out secIds h hc hnd hfresh hL hS hD hP
    simp only [loadSectionsLoop, bind_ok_iff] at h
    obtain ⟨r1, hr1, sid, hsid, r2, hr2, text, htext, rootCh, hroot, h⟩ := h
    have hgs : sect.get? "identifier" = some (.str sid) := by
      have h1 := getItem_ok _ _ _ hr1
      have h2 := asStr_ok _ _ hsid
      rw [h2] at h1
      exact h1
    simp only [sectionIdsOf, hgs] at hc
    cases hm : sectionIdsOf rest with
    | none => rw [hm] at hc; exact Option.noConfusion hc
    | some rs =>
      rw [hm] at hc
      injection hc with hcids
      have hroot' : alistGet st.«structure» "__root" = some rootCh :=
        (alistGetE_ok_iff _ _ _).mp hroot
      have hmemsid : sid ∈ secIds := by
        rw [← hcids]; exact List.mem_cons_self _ _
      have hfre := hfresh sid hmemsid
      have hnds : rs.Nodup ∧ sid ∉ rs := by
        rw [← hcids] at hnd
        exact ⟨hnd.of_cons, (List.nodup_cons.mp hnd).1⟩
      have hregI := register_section_invariants st
        { st with id_path := alistSet st.id_path sid [sid],
                  name_path := alistSet st.name_path sid [text],
                  «structure» := alistSet
                    (alistSet st.«structure» "__root" (rootCh ++ [sid])) sid [] }
        sid text rootCh hroot' hfre.1 hfre.2 rfl rfl rfl hL hS hD hP
      obtain ⟨hL3, hS3, hD3, hP3⟩ := hregI
      have hfresh3 : ∀ j ∈ rs,
          alistGet (alistSet st.id_path sid [sid]) j = none ∧ j ≠ "__root" := by
        intro j hj
        have hf := hfresh j (by rw [← hcids]; exact List.mem_cons_of_mem _ hj)
        have hjn : j ≠ sid := fun he => hnds.2 (he ▸ hj)
        exact ⟨by rw [alistGet_set_ne _ _ _ _ hjn]; exact hf.1, hf.2⟩
      have hih := ih _ _ _ _ h hm hnds.1 hfresh3 hL3 hS3 hD3 hP3
      obtain ⟨hinvF, hsecF, hpresF, hgrowF, hfdF⟩ := hih
      refine ⟨hinvF, ?_, ?_, ?_, hfdF⟩
      · intro s hs
        rw [← hcids] at hs
        rcases List.mem_cons.mp hs with hss | hsr
        · obtain ⟨e1, e2⟩ := hpresF s (hss ▸ hnds.2)
          constructor
          · rw [e1, hss]
            show alistGet (alistSet st.id_path sid [sid]) sid = some [sid]
            exact alistGet_set_self _ _ _
          · refine ⟨text, ?_⟩
            rw [e2, hss]
            show alistGet (alistSet st.name_path sid [text]) sid = some [text]
            exact alistGet_set_self _ _ _
        · exact hsecF s hsr
      · intro k hk
        have hkns : k ≠ sid := fun he => hk (by rw [← hcids, he]; exact List.mem_cons_self _ _)
        have hknr : k ∉ rs := fun hm2 => hk (by rw [← hcids]; exact List.mem_cons_of_mem _ hm2)
        obtain ⟨e1, e2⟩ := hpresF k hknr
        constructor
        · rw [e1]
          show alistGet (alistSet st.id_path sid [sid]) k = alistGet st.id_path k
          exact alistGet_set_ne _ _ _ _ hkns
        · rw [e2]
          show alistGet (alistSet st.name_path sid [text]) k = alistGet st.name_path k
          exact alistGet_set_ne _ _ _ _ hkns
      · intro k hk
        rcases hgrowF k hk with hs | hs
        · by_cases hkn : k = sid
          · exact Or.inr (hkn ▸ hmemsid)
          · left
            have hk2 : (alistGet (alistSet st.id_path sid [sid]) k).isSome = true := hs
            rw [alistGet_set_ne _ _ _ _ hkn] at hk2
            exact hk2
        · right
          rw [← hcids]
          exact List.mem_cons_of_mem _ hs

set_option maxHeartbeats 1000000 in
theorem documents_loop_master : ∀ (proxies : List PyVal) (fuel : Nat) (disk : Disk)
    (st st' : Mindly) (dss : List (List String)) (secIds : List String),
    loadDocumentsLoop fuel disk st proxies = .ok st' →
    allDocIds fuel disk proxies = some dss →
    dss.flatten.Nodup →
    (∀ j ∈ dss.flatten, alistGet st.id_path j = none ∧ j ≠ "__root") →
    (∀ p ∈ proxies, ∀ s, proxySectionOf p = some s → s ∈ secIds) →
    (∀ p ∈ proxies, proxyRootMatch fuel disk p = true) →
    (∀ sid ∈ secIds, alistGet st.id_path sid = some [sid] ∧
        ∃ t, alistGet st.name_path sid = some [t]) →
    LenInv st → StructInv st → StructDom st → PosInv st →
    (LenInv st' ∧ StructInv st' ∧ StructDom st' ∧ PosInv st')
    ∧ (∀ k, k ∉ dss.flatten →
        alistGet st'.id_path k = alistGet st.id_path k ∧
        alistGet st'.name_path k = alistGet st.name_path k)
    ∧ (∀ k, (alistGet st'.id_path k).isSome = true →
        (alistGet st.id_path k).isSome = true ∨ k ∈ dss.flatten) := by
  intro proxies
  induction proxies with
  | nil =>
    intro fuel disk st st' dss secIds h hc hnd hfresh hpx hprm hsec hL hS hD hP
    simp only [loadDocumentsLoop] at h
    injection h with h
    simp only [allDocIds] at hc
    injection hc with hc
    rw [← h, ← hc]
    refine ⟨⟨hL, hS, hD, hP⟩, ?_, ?_⟩
    · intro k _; exact ⟨rfl, rfl⟩
    · intro k hk; exact Or.inl hk
  | cons proxy rest ih =>
    intro fuel disk st st' dss secIds h hc hnd hfresh hpx hprm hsec hL hS hD hP
    simp only [loadDocumentsLoop, bind_ok_iff] at h
    obtain ⟨section_id, hsec1, rp, hrp, pid, hpid2, ch, hch, rf, hrf, fname, hf2,
      rf2, hrf2, fname2, hf22, rp2, hrp2, pid2, hpid22, pr, hlid, h⟩ := h
    obtain ⟨st3, ns⟩ := pr
    have hgp : proxy.get? "identifier" = some (.str pid) := by
      have h1 := getItem_ok _ _ _ hrp
      have h2 := asStr_ok _ _ hpid2
      rw [h2] at h1
      exact h1
    have hgf : proxy.get? "filename" = some (.str fname) := by
      have h1 := getItem_ok _ _ _ hrf
      have h2 := asStr_ok _ _ hf2
      rw [h2] at h1
      exact h1
    have hpid2e : pid2 = pid := by
      have h1 := getItem_ok _ _ _ hrp2
      rw [hgp] at h1
      injection h1 with h1
      rw [← h1] at hpid22
      have h2 := asStr_ok _ _ hpid22
      injection h2 with h2
      rw [h2]
    have hf2e : fname2 = fname := by
      have h1 := getItem_ok _ _ _ hrf2
      rw [hgf] at h1
      injection h1 with h1
      rw [← h1] at hf22
      have h2 := asStr_ok _ _ hf22
      injection h2 with h2
      rw [h2]
    rw [hpid2e, hf2e] at hlid
    have hch' : alistGet st.«structure» section_id = some ch :=
      (alistGetE_ok_iff _ _ _).mp hch
    have hpsec : proxySectionOf proxy = some section_id := by
      cases hps : proxy.get? "section" with
      | some v =>
        simp only [pyGetStr, hps] at hsec1
        have hveq := asStr_ok _ _ hsec1
        simp [proxySectionOf, hps, hveq]
      | none =>
        simp only [pyGetStr, hps] at hsec1
        injection hsec1 with hse
        simp [proxySectionOf, hps, hse]
    have hsecmem : section_id ∈ secIds :=
      hpx proxy (List.mem_cons_self _ _) section_id hpsec
    obtain ⟨hsecid, t, hsecname⟩ := hsec section_id hsecmem
    -- align the collector with the decoded document
    simp only [allDocIds] at hc
    cases hdi0 : docIdsOf fuel disk proxy with
    | none => rw [hdi0] at hc; exact Option.noConfusion hc
    | some ids0 =>
      rw [hdi0] at hc
      cases hra : allDocIds fuel disk rest with
      | none => rw [hra] at hc; exact Option.noConfusion hc
      | some dssR =>
        rw [hra] at hc
        injection hc with hcds
        have hdi := hdi0
        cases hdisk : alistGet disk fname with
        | none =>
          simp only [docIdsOf, hgf, hdisk] at hdi
          exact Option.noConfusion hdi
        | some raw =>
          simp only [docIdsOf, hgf, hdisk] at hdi
          cases hpayq : raw.get? "ideaDocumentDataObject" with
          | none =>
            simp only [hpayq] at hdi
            exact Option.noConfusion hdi
          | some payload =>
            simp only [hpayq] at hdi
            cases hideaq : payload.get? "idea" with
            | none =>
              simp only [hideaq] at hdi
              exact Option.noConfusion hdi
            | some idea =>
              simp only [hideaq] at hdi
              -- hdi : collectIds fuel idea = some ids0
              -- decompose the document decode
              simp only [Mindly._load_ideas_document, bind_ok_iff] at hlid
              obtain ⟨raw2, hraw2, payload2, hpay2, hlid⟩ := hlid
              simp only [diskRead, hdisk] at hraw2
              injection hraw2 with hraw2
              rw [← hraw2] at hpay2
              have hpay2' := getItem_ok _ _ _ hpay2
              rw [hpayq] at hpay2'
              injection hpay2' with hpay2'
              rw [← hpay2'] at hlid
              split at hlid
              · -- fileFormatVersion = 4
                simp only [bind_ok_iff] at hlid
                obtain ⟨rootIdea, hri, pr2, hex, hlid⟩ := hlid
                obtain ⟨st2e, ns2⟩ := pr2
                injection hlid with hlid
                injection hlid with hst3 hns
                have hri' := getItem_ok _ _ _ hri
                rw [hideaq] at hri'
                injection hri' with hri'
                rw [← hri'] at hex
                -- proxy/root identifier agreement
                have hheadP : ids0.head? = some pid := by
                  have hm := hprm proxy (List.mem_cons_self _ _)
                  simp only [proxyRootMatch, hgp, hdi0] at hm
                  cases ids0 with
                  | nil => exact Bool.noConfusion hm
                  | cons did tl =>
                    have : pid = did := by
                      have hbe : (pid == did) = true := hm
                      exact eq_of_beq hbe
                    rw [this]
                    rfl
                have hfl : dss.flatten = ids0 ++ dssR.flatten := by
                  rw [← hcds]
                  simp
                rw [hfl] at hnd hfresh
                have hnd0 : ids0.Nodup := hnd.of_append_left
                have hndR : dssR.flatten.Nodup := hnd.of_append_right
                have hdisj : ∀ x ∈ dssR.flatten, x ∉ ids0 := by
                  intro x hx hxc
                  exact (List.disjoint_of_nodup_append hnd) hxc hx
                have happI := append_invariants st
                  { st with
                    «structure» := alistSet st.«structure» section_id (ch ++ [pid]),
                    proxy_filenames := st.proxy_filenames ++ [fname],
                    file_data := alistSet st.file_data fname payload }
                  section_id pid ch rfl rfl rfl hch' hL hS hD hP
                obtain ⟨hL1, hS1, hD1, hP1⟩ := happI
                have hfresh0 : ∀ j ∈ ids0,
                    alistGet st.id_path j = none ∧ j ≠ "__root" := by
                  intro j hj
                  exact hfresh j (List.mem_append.mpr (Or.inl hj))
                have hext := (extract_master fuel).1 _ _ _ _ _ _ hex hdi hnd0
                  hfresh0 (by simp)
                  (by
                    intro a ha
                    have ha2 : a = section_id := by simpa using ha
                    right
                    show (alistGet st.id_path a).isSome = true
                    rw [ha2, hsecid]
                    rfl)
                  (by
                    intro hd hh
                    rw [hheadP] at hh
                    injection hh with hh
                    rw [← hh]
                    rfl)
                  (by
                    intro par hp2
                    have hneg : negSecond [section_id, pid] = .ok section_id := rfl
                    rw [hneg] at hp2
                    injection hp2 with hp2
                    rw [← hp2]
                    refine ⟨hsecid, ?_, ?_⟩
                    · intro q2 hq2
                      have hq2' : alistGet st.name_path section_id = some q2 := hq2
                      rw [hsecname] at hq2'
                      injection hq2' with hq2'
                      rw [← hq2']
                      rfl
                    · intro hd hh
                      rw [hheadP] at hh
                      injection hh with hh
                      refine ⟨ch ++ [pid], ?_, ?_⟩
                      · show alistGet
                          (alistSet st.«structure» section_id (ch ++ [pid]))
                          section_id = some (ch ++ [pid])
                        exact alistGet_set_self _ _ _
                      · rw [← hh]
                        exact List.mem_append.mpr
                          (Or.inr (List.mem_singleton.mpr rfl)))
                  hL1 hS1 hD1 hP1
                obtain ⟨⟨hLx, hSx, hDx, hPx⟩, hpresX, hgrowX⟩ := hext
                -- the filename_by_id / nodes updates change no index
                have hihargs : loadDocumentsLoop fuel disk
                    { st3 with nodes := pyUpdate st3.nodes ns } rest = .ok st' := h
                rw [← hst3] at hihargs
                have hfreshR : ∀ j ∈ dssR.flatten,
                    alistGet st2e.id_path j = none ∧ j ≠ "__root" := by
                  intro j hj
                  have hf := hfresh j (List.mem_append.mpr (Or.inr hj))
                  obtain ⟨e1, e2⟩ := hpresX j (hdisj j hj)
                  exact ⟨by rw [e1]; exact hf.1, hf.2⟩
                have hsecR : ∀ sid ∈ secIds,
                    alistGet st2e.id_path sid = some [sid] ∧
                    ∃ t2, alistGet st2e.name_path sid = some [t2] := by
                  intro sid hsid
                  obtain ⟨hsi, t2, hsn⟩ := hsec sid hsid
                  have hsni : sid ∉ ids0 := by
                    intro hm2
                    have := (hfresh0 sid hm2).1
                    rw [hsi] at this
                    exact Option.noConfusion this
                  obtain ⟨e1, e2⟩ := hpresX sid hsni
                  exact ⟨by rw [e1]; exact hsi, ⟨t2, by rw [e2]; exact hsn⟩⟩
                have hih := ih fuel disk _ st' dssR secIds hihargs hra hndR
                  hfreshR
                  (fun p hp => hpx p (List.mem_cons_of_mem _ hp))
                  (fun p hp => hprm p (List.mem_cons_of_mem _ hp))
                  hsecR hLx hSx hDx hPx
                obtain ⟨hinvF, hpresF, hgrowF⟩ := hih
                refine ⟨hinvF, ?_, ?_⟩
                · intro k hk
                  rw [hfl] at hk
                  have hk0 : k ∉ ids0 := fun hm2 =>
                    hk (List.mem_append.mpr (Or.inl hm2))
                  have hkR : k ∉ dssR.flatten := fun hm2 =>
                    hk (List.mem_append.mpr (Or.inr hm2))
                  obtain ⟨f1, f2⟩ := hpresF k hkR
                  obtain ⟨e1, e2⟩ := hpresX k hk0
                  exact ⟨by rw [f1, e1], by rw [f2, e2]⟩
                · intro k hk
                  rw [hfl]
                  rcases hgrowF k hk with hs | hs
                  · rcases hgrowX k hs with hs2 | hs2
                    · exact Or.inl hs2
                    · exact Or.inr (List.mem_append.mpr (Or.inl hs2))
                  · exact Or.inr (List.mem_append.mpr (Or.inr hs))
              · exact Except.noConfusion hlid

set_option maxHeartbeats 1000000 in
theorem load_files_invariants (fuel : Nat) (st0 : Mindly) (disk : Disk)
    (st' : Mindly)
    (h : Mindly.load_files fuel st0 disk = .ok st')
    (hwf : loadWF fuel disk = true) :
    (LenInv st' ∧ StructInv st' ∧ StructDom st' ∧ PosInv st')
    ∧ (∀ secIds, sectionIdsFromDisk disk = some secIds →
        ∀ sid ∈ secIds, alistGet st'.id_path sid = some [sid]) := by
  simp only [Mindly.load_files, bind_ok_iff] at h
  obtain ⟨st2, hidx, st3, hsecs, h⟩ := h
  simp only [Mindly._load_index, bind_ok_iff] at hidx
  obtain ⟨v, hv, hidx⟩ := hidx
  cases hdisk : alistGet disk "mindly.index" with
  | none =>
    simp only [diskRead, hdisk] at hv
    exact Except.noConfusion hv
  | some iv =>
    simp only [diskRead, hdisk] at hv
    injection hv with hv
    rw [← hv] at hidx
    split at hidx
    case h_2 => exact Except.noConfusion hidx
    case h_1 hver =>
      injection hidx with hidx
      -- unpack well-formedness along the same data
      simp only [loadWF, hdisk] at hwf
      cases hss : iv.get? "sections" with
      | none =>
        simp only [hss] at hwf
        exact Bool.noConfusion hwf
      | some sv =>
        cases hpp : iv.get? "proxies" with
        | none =>
          simp only [hss, hpp] at hwf
          cases sv <;> simp at hwf
        | some pv =>
          simp only [hss, hpp] at hwf
          cases sv with
          | list ss =>
            cases pv with
            | list ps =>
              cases hsi : sectionIdsOf ss with
              | none =>
                simp only [hsi] at hwf
                exact Bool.noConfusion hwf
              | some secIds =>
                cases hdss : allDocIds fuel disk ps with
                | none =>
                  simp only [hsi, hdss] at hwf
                  exact Bool.noConfusion hwf
                | some dss =>
                  cases hpsc : proxySectionsOf ps with
                  | none =>
                    simp only [hsi, hdss, hpsc] at hwf
                    exact Bool.noConfusion hwf
                  | some psecs =>
                    simp only [hsi, hdss, hpsc, Bool.and_eq_true] at hwf
                    obtain ⟨⟨⟨hdst, hnrB⟩, hpsB⟩, hprmB⟩ := hwf
                    have hrootF : (secIds ++ dss.flatten).contains "__root" = false := by
                      simp only [Bool.not_eq_true'] at hnrB
                      exact hnrB
                    -- the sections phase
                    simp only [Mindly._load_sections, bind_ok_iff] at hsecs
                    obtain ⟨index, hindex, sv2, hsv2, secsList, hsl, pr, hloop, hsecs⟩ := hsecs
                    obtain ⟨st1s, secs⟩ := pr
                    injection hsecs with hst3
                    have hx := (alistGetE_ok_iff _ _ _).mp hindex
                    rw [← hidx] at hx
                    have hx2 : alistGet (alistSet ([] : List (String × PyVal))
                        "mindly.index" iv) "mindly.index" = some index := hx
                    rw [alistGet_set_self] at hx2
                    injection hx2 with hx2
                    have hsv2' := getItem_ok _ _ _ hsv2
                    rw [← hx2, hss] at hsv2'
                    injection hsv2' with hsv2'
                    have hsl' := asList_ok _ _ hsl
                    rw [← hsv2'] at hsl'
                    injection hsl' with hsl'
                    rw [← hsl'] at hloop
                    have hndS : secIds.Nodup :=
                      distinctB_nodup _ (distinctB_append_left _ _ hdst)
                    have hfr : ∀ j ∈ secIds,
                        alistGet st2.id_path j = none ∧ j ≠ "__root" := by
                      intro j hj
                      constructor
                      · rw [← hidx]
                        rfl
                      · intro he
                        have hmem : j ∈ secIds ++ dss.flatten :=
                          List.mem_append.mpr (Or.inl hj)
                        rw [he] at hmem
                        exact not_contains_forall _ _ hrootF hmem
                    have hL2 : LenInv st2 := by
                      rw [← hidx]
                      intro id p hp
                      exact Option.noConfusion hp
                    have hS2 : StructInv st2 := by
                      rw [← hidx]
                      intro id p hp
                      exact Option.noConfusion hp
                    have hP2 : PosInv st2 := by
                      rw [← hidx]
                      intro id p hp
                      exact Option.noConfusion hp
                    have hD2 : StructDom st2 := by
                      rw [← hidx]
                      intro k hk
                      have hk2 : (alistGet [("__root", ([] : List String))] k).isSome
                          = true := hk
                      by_cases hrk : "__root" = k
                      · exact Or.inl hrk.symm
                      · exfalso
                        unfold alistGet at hk2
                        rw [if_neg hrk] at hk2
                        exact Bool.noConfusion hk2
                    have hsecM := sections_loop_master ss st2 [] (st1s, secs) secIds
                      hloop hsi hndS hfr hL2 hS2 hD2 hP2
                    obtain ⟨⟨hL3, hS3, hD3, hP3⟩, hsecF, hpresS, hgrowS, hfdS⟩ := hsecM
                    -- the documents phase
                    simp only [Mindly._load_documents, bind_ok_iff] at h
                    obtain ⟨index2, hi2, pv2, hpv2, proxiesList, hplst, h⟩ := h
                    have hy := (alistGetE_ok_iff _ _ _).mp hi2
                    rw [← hst3] at hy
                    have hy1 : alistGet st1s.file_data "mindly.index" = some index2 := hy
                    rw [hfdS, ← hidx] at hy1
                    have hy2 : alistGet (alistSet ([] : List (String × PyVal))
                        "mindly.index" iv) "mindly.index" = some index2 := hy1
                    rw [alistGet_set_self] at hy2
                    injection hy2 with hy2
                    have hpv2' := getItem_ok _ _ _ hpv2
                    rw [← hy2, hpp] at hpv2'
                    injection hpv2' with hpv2'
                    have hplst' := asList_ok _ _ hplst
                    rw [← hpv2'] at hplst'
                    injection hplst' with hplst'
                    rw [← hplst'] at h
                    have hndD : dss.flatten.Nodup :=
                      distinctB_nodup _ (distinctB_append_right _ _ hdst)
                    have hdisjSD : ∀ x ∈ dss.flatten, x ∉ secIds :=
                      distinctB_append_disjoint _ _ hdst
                    have hLd : LenInv st3 := by rw [← hst3]; exact hL3
                    have hSd : StructInv st3 := by rw [← hst3]; exact hS3
                    have hDd : StructDom st3 := by rw [← hst3]; exact hD3
                    have hPd : PosInv st3 := by rw [← hst3]; exact hP3
                    have hfrD : ∀ j ∈ dss.flatten,
                        alistGet st3.id_path j = none ∧ j ≠ "__root" := by
                      intro j hj
                      obtain ⟨e1, _⟩ := hpresS j (hdisjSD j hj)
                      constructor
                      · rw [← hst3]
                        show alistGet st1s.id_path j = none
                        rw [e1, ← hidx]
                        rfl
                      · intro he
                        have hmem : j ∈ secIds ++ dss.flatten :=
                          List.mem_append.mpr (Or.inr hj)
                        rw [he] at hmem
                        exact not_contains_forall _ _ hrootF hmem
                    have hpxD : ∀ p ∈ ps, ∀ s2, proxySectionOf p = some s2 →
                        s2 ∈ secIds := by
                      intro p hp s2 hs2
                      have hmem := proxySectionsOf_mem ps psecs hpsc p hp s2 hs2
                      have hcont := List.all_eq_true.mp hpsB s2 hmem
                      exact (contains_true_iff _ _).mp hcont
                    have hprmD : ∀ p ∈ ps, proxyRootMatch fuel disk p = true :=
                      fun p hp => List.all_eq_true.mp hprmB p hp
                    have hsecD : ∀ sid ∈ secIds,
                        alistGet st3.id_path sid = some [sid] ∧
                        ∃ t2, alistGet st3.name_path sid = some [t2] := by
                      intro sid hsid
                      obtain ⟨e1, t2, e2⟩ := hsecF sid hsid
                      rw [← hst3]
                      exact ⟨e1, t2, e2⟩
                    have hdocM := documents_loop_master ps fuel disk st3 st' dss secIds
                      h hdss hndD hfrD hpxD hprmD hsecD hLd hSd hDd hPd
                    obtain ⟨hinvF, hpresD, hgrowD⟩ := hdocM
                    refine ⟨hinvF, ?_⟩
                    intro secIds2 hsfd sid hsid
                    simp only [sectionIdsFromDisk, hdisk, hss, hsi] at hsfd
                    injection hsfd with hsfd
                    rw [← hsfd] at hsid
                    have hsnf : sid ∉ dss.flatten := fun hm2 =>
                      (hdisjSD sid hm2) hsid
                    obtain ⟨e1, _⟩ := hpresD sid hsnf
                    rw [e1, ← hst3]
                    show alistGet st1s.id_path sid = some [sid]
                    exact (hsecF sid hsid).1
            | str s2 => simp at hwf
            | int n2 => simp at hwf
            | bool b2 => simp at hwf
            | dict kv2 => simp at hwf
          | str s2 => simp at hwf
          | int n2 => simp at hwf
          | bool b2 => simp at hwf
          | dict kv2 => simp at hwf

theorem register_len_pos (st st2 : Mindly) (node_id text parent_id : String)
    (ppath pnames : List String)
    (h2i : st2.id_path = alistSet st.id_path node_id (ppath ++ [node_id]))
    (h2n : st2.name_path = alistSet st.name_path node_id (pnames ++ [text]))
    (hfresh : alistGet st.id_path node_id = none)
    (hpp : ppath = [] ∨ (alistGet st.id_path parent_id = some ppath ∧
        alistGet st.name_path parent_id = some pnames))
    (hplen : pnames.length = ppath.length)
    (hL : LenInv st) (hP : PosInv st) : LenInv st2 ∧ PosInv st2 := by
  constructor
  · intro id p hp
    rw [h2i] at hp
    by_cases hid : id = node_id
    · rw [hid, alistGet_set_self] at hp
      injection hp with hp
      refine ⟨pnames ++ [text], ?_, ?_⟩
      · rw [h2n, hid, alistGet_set_self]
      · rw [← hp]
        simp only [List.length_append, List.length_cons, List.length_nil]
        omega
    · rw [alistGet_set_ne _ _ _ _ hid] at hp
      obtain ⟨q, hq, hql⟩ := hL id p hp
      exact ⟨q, by rw [h2n, alistGet_set_ne _ _ _ _ hid]; exact hq, hql⟩
  · intro id p hp q hq i a ha
    rw [h2i] at hp
    rw [h2n] at hq
    by_cases hid : id = node_id
    · rw [hid, alistGet_set_self] at hp hq
      injection hp with hp
      injection hq with hq
      rw [← hp] at ha
      rw [← hp, ← hq]
      by_cases hi : i < ppath.length
      · -- interior position: inherited from the parent entry
        have ha2 : ppath.get? i = some a := by
          rw [List.get?_eq_getElem?] at ha ⊢
          rw [List.getElem?_append, if_pos hi] at ha
          exact ha
        cases hpp with
        | inl hnil =>
          rw [hnil] at hi
          exact absurd hi (by simp)
        | inr hpar =>
          obtain ⟨hpi, hpn⟩ := hpar
          obtain ⟨h1, h2⟩ := hP parent_id ppath hpi pnames hpn i a ha2
          have hane : a ≠ node_id := by
            intro he
            rw [he, hfresh] at h1
            exact Option.noConfusion h1
          have hisucc : i + 1 ≤ ppath.length := hi
          have htk : (ppath ++ [node_id]).take (i + 1) = ppath.take (i + 1) :=
            List.take_append_of_le_length hisucc
          have htq : (pnames ++ [text]).take (i + 1) = pnames.take (i + 1) :=
            List.take_append_of_le_length (by omega)
          constructor
          · rw [h2i, alistGet_set_ne _ _ _ _ hane, htk]
            exact h1
          · rw [h2n, alistGet_set_ne _ _ _ _ hane, htq]
            exact h2
      · -- the last position is the new node itself
        have hilt : i < (ppath ++ [node_id]).length := get?_lt_of_some _ i a ha
        have hieq : i = ppath.length := by
          simp only [List.length_append, List.length_cons, List.length_nil] at hilt
          omega
        have ha2 : a = node_id := by
          rw [List.get?_eq_getElem?, hieq, List.getElem?_concat_length] at ha
          injection ha with ha
          exact ha.symm
        rw [ha2]
        constructor
        · rw [h2i, alistGet_set_self]
          have : (ppath ++ [node_id]).length = i + 1 := by
            simp only [List.length_append, List.length_cons, List.length_nil]
            omega
          rw [← this, List.take_length]
        · rw [h2n, alistGet_set_self]
          have : (pnames ++ [text]).length = i + 1 := by
            simp only [List.length_append, List.length_cons, List.length_nil]
            omega
          rw [← this, List.take_length]
    · rw [alistGet_set_ne _ _ _ _ hid] at hp
      rw [alistGet_set_ne _ _ _ _ hid] at hq
      obtain ⟨h1, h2⟩ := hP id p hp q hq i a ha
      have hane : a ≠ node_id := by
        intro he
        rw [he, hfresh] at h1
        exact Option.noConfusion h1
      exact ⟨by rw [h2i, alistGet_set_ne _ _ _ _ hane]; exact h1,
             by rw [h2n, alistGet_set_ne _ _ _ _ hane]; exact h2⟩

theorem new_section_shape (st : Mindly) (sid text : String) (st' : Mindly)
    (node : PyVal) (h : st.new_section sid text = .ok (st', node)) :
    st'.id_path = alistSet st.id_path sid [sid] ∧
    st'.name_path = alistSet st.name_path sid [text] ∧
    st'.«structure» = st.«structure» := by
  simp only [Mindly.new_section, bind_ok_iff] at h
  obtain ⟨index, hidx, sections, hsec, ss, hss, index2, hsk, st2m, hmm, h⟩ := h
  injection h with h
  injection h with h1 h2
  obtain ⟨-, hid, hname, -, -, hstr⟩ := mark_modified_frame _ _ _ _ hmm
  refine ⟨?_, ?_, ?_⟩
  · rw [← h1]
    show alistSet st2m.id_path sid [sid] = _
    rw [hid]
  · rw [← h1]
    show alistSet st2m.name_path sid [text] = _
    rw [hname]
  · rw [← h1]
    show st2m.«structure» = _
    rw [hstr]

theorem new_document_shape (st : Mindly) (text sect_id note color : String)
    (node_id file_id now mtime : String) (st' : Mindly) (node : PyVal)
    (hsne : sect_id ≠ node_id)
    (h : st.new_document text sect_id note color node_id file_id now mtime
      = .ok (st', node)) :
    ∃ sectNode sectText,
      alistGet st.nodes sect_id = some sectNode ∧
      sectNode.get? "text" = some (.str sectText) ∧
      st'.id_path = alistSet st.id_path node_id [sect_id, node_id] ∧
      st'.name_path = alistSet st.name_path node_id [sectText, text] ∧
      st'.«structure» = st.«structure» := by
  simp only [Mindly.new_document, bind_ok_iff] at h
  obtain ⟨index, hidx, proxies, hpx, ps, hps, index2, hsk, doc, hdoc, doc2, hdk,
    st6, hmm, sectNode, hsn, sv, hsv, sectText, hstx, h⟩ := h
  injection h with h
  injection h with h1 h2
  obtain ⟨hnodes, hid, hname, -, -, hstr⟩ := mark_modified_frame _ _ _ _ hmm
  rw [alistGetE_ok_iff] at hsn
  rw [hnodes] at hsn
  have hsn2 : alistGet (alistSet st.nodes node_id
      (.dict (pyUpdate (pyUpdate idea_defaults
        ((if note = "" then [] else [("note", PyVal.str note)]) ++
         (if color = "" then [] else [("color", PyVal.str color)])))
        [("text", .str text), ("identifier", .str node_id)]))) sect_id
      = some sectNode := hsn
  rw [alistGet_set_ne _ _ _ _ hsne] at hsn2
  have hstx2 : sectNode.get? "text" = some (.str sectText) := by
    have hg := getItem_ok _ _ _ hsv
    have ha := asStr_ok _ _ hstx
    rw [ha] at hg
    exact hg
  refine ⟨sectNode, sectText, hsn2, hstx2, ?_, ?_, ?_⟩
  · rw [← h1]
    show alistSet st6.id_path node_id [sect_id, node_id] = _
    rw [hid]
  · rw [← h1]
    show alistSet st6.name_path node_id [sectText, text] = _
    rw [hname]
  · rw [← h1]
    show st6.«structure» = _
    rw [hstr]

theorem new_idea_shape (st : Mindly)
    (parent_id text idea_type note color color_theme_type : String)
    (idea_id mtime : String) (st' : Mindly) (node : PyVal)
    (h : st.new_idea parent_id text idea_type note color color_theme_type
      idea_id mtime = .ok (st', node)) :
    ∃ ppath pnames,
      alistGet st.id_path parent_id = some ppath ∧
      alistGet st.name_path parent_id = some pnames ∧
      st'.id_path = alistSet st.id_path idea_id (ppath ++ [idea_id]) ∧
      st'.name_path = alistSet st.name_path idea_id (pnames ++ [text]) ∧
      st'.«structure» = st.«structure» := by
  unfold Mindly.new_idea at h
  rw [bind_ok_iff] at h
  obtain ⟨parent0, hp0, h⟩ := h
  by_cases hkey : parent0.hasKey "ideas" = true
  · rw [if_pos hkey] at h
    simp only [bind_ok_iff] at h
    obtain ⟨y, hy, cur, hcur, curList, hcl, parent2, hp2, filename, hfn, i0,
      heqIdxE, fd, hfd, filename2, hfn2, st5, hmk, pp, hpp, pn, hpn, hfin⟩ := h
    injection hy with hy2
    subst hy2
    injection hfin with hfin
    injection hfin with h1 h2
    obtain ⟨-, hid, hname, -, -, hstr⟩ := mark_modified_frame _ _ _ _ hmk
    rw [alistGetE_ok_iff] at hpp hpn
    rw [hid] at hpp
    rw [hname] at hpn
    refine ⟨pp, pn, hpp, hpn, ?_, ?_, ?_⟩
    · rw [← h1]
      show alistSet st5.id_path idea_id (pp ++ [idea_id]) = _
      rw [hid]
    · rw [← h1]
      show alistSet st5.name_path idea_id (pn ++ [text]) = _
      rw [hname]
    · rw [← h1]
      show st5.«structure» = _
      rw [hstr]
  · rw [if_neg hkey] at h
    simp only [bind_ok_iff] at h
    obtain ⟨parent1, hp1, cur, hcur, curList, hcl, parent2, hp2, filename, hfn, i0,
      heqIdxE, fd, hfd, filename2, hfn2, st5, hmk, pp, hpp, pn, hpn, hfin⟩ := h
    injection hfin with hfin
    injection hfin with h1 h2
    obtain ⟨-, hid, hname, -, -, hstr⟩ := mark_modified_frame _ _ _ _ hmk
    rw [alistGetE_ok_iff] at hpp hpn
    rw [hid] at hpp
    rw [hname] at hpn
    refine ⟨pp, pn, hpp, hpn, ?_, ?_, ?_⟩
    · rw [← h1]
      show alistSet st5.id_path idea_id (pp ++ [idea_id]) = _
      rw [hid]
    · rw [← h1]
      show alistSet st5.name_path idea_id (pn ++ [text]) = _
      rw [hname]
    · rw [← h1]
      show st5.«structure» = _
      rw [hstr]

theorem new_document_structure (st : Mindly) (text sect_id note color : String)
    (node_id file_id now mtime : String) (st' : Mindly) (node : PyVal)
    (h : st.new_document text sect_id note color node_id file_id now mtime
      = .ok (st', node)) :
    st'.«structure» = st.«structure» := by
  simp only [Mindly.new_document, bind_ok_iff] at h
  obtain ⟨index, hidx, proxies, hpx, ps, hps, index2, hsk, doc, hdoc, doc2, hdk,
    st6, hmm, sectNode, hsn, sv, hsv, sectText, hstx, h⟩ := h
  injection h with h
  injection h with h1 h2
  obtain ⟨-, -, -, -, -, hstr⟩ := mark_modified_frame _ _ _ _ hmm
  rw [← h1]
  show st6.«structure» = _
  rw [hstr]

/-- Claim C2 (corrected): after `load_files` on a well-formed data
directory, `structure` inverts the parent relation — every Section
identifier is listed under the virtual root, and every node whose
ancestry-by-id is longer than one is listed under its `[-2]` ancestor
(`StructInv`).  The node-creation operations, however, never touch
`structure` at all, so the nodes they create are missing from it and
the claimed invariant does not survive creation. -/
theorem C2_structure_inverse
    : (∀ fuel st0 disk st' secIds,
        Mindly.load_files fuel st0 disk = .ok st' →
        loadWF fuel disk = true →
        sectionIdsFromDisk disk = some secIds →
        StructInv st' ∧
        ∀ sid ∈ secIds, ∃ rl,
          alistGet st'.«structure» "__root" = some rl ∧ sid ∈ rl)
    ∧ (∀ st sid text st' node,
        Mindly.new_section st sid text = .ok (st', node) →
        st'.«structure» = st.«structure»)
    ∧ (∀ st text sect_id note color node_id file_id now mtime st' node,
        Mindly.new_document st text sect_id note color node_id file_id now mtime
          = .ok (st', node) →
        st'.«structure» = st.«structure»)
    ∧ (∀ st parent_id text idea_type note color ctt idea_id mtime st' node,
        Mindly.new_idea st parent_id text idea_type note color ctt idea_id mtime
          = .ok (st', node) →
        st'.«structure» = st.«structure») := by
  refine ⟨?_, ?_, ?_, ?_⟩
  · intro fuel st0 disk st' secIds h hwf hsfd
    obtain ⟨⟨hL, hS, hD, hP⟩, hsecs⟩ := load_files_invariants fuel st0 disk st' h hwf
    refine ⟨hS, ?_⟩
    intro sid hsid
    have hsi := hsecs secIds hsfd sid hsid
    exact (hS sid [sid] hsi).1 rfl
  · intro st sid text st' node h
    exact (new_section_shape st sid text st' node h).2.2
  · intro st text sect_id note color node_id file_id now mtime st' node h
    exact new_document_structure st text sect_id note color node_id file_id now
      mtime st' node h
  · intro st parent_id text idea_type note color ctt idea_id mtime st' node h
    obtain ⟨pp, pn, -, -, -, -, hstr⟩ :=
      new_idea_shape st parent_id text idea_type note color ctt idea_id mtime
        st' node h
    exact hstr

/-- Claim C9: after `load_files` on a well-formed directory, and across
every node-creation operation (run with a fresh generated identifier,
and — for `new_document` — a section whose node text agrees with the
indices), every registered node's ancestry-by-id and ancestry-by-name
have equal length (`LenInv`) and correspond position by position
(`PosInv`). -/
theorem C9_ancestry_lengths_agree
    : (∀ fuel st0 disk st',
        Mindly.load_files fuel st0 disk = .ok st' →
        loadWF fuel disk = true →
        LenInv st' ∧ PosInv st')
    ∧ (∀ st sid text st' node,
        Mindly.new_section st sid text = .ok (st', node) →
        alistGet st.id_path sid = none →
        LenInv st → PosInv st →
        LenInv st' ∧ PosInv st')
    ∧ (∀ st text sect_id note color node_id file_id now mtime st' node,
        Mindly.new_document st text sect_id note color node_id file_id now mtime
          = .ok (st', node) →
        alistGet st.id_path node_id = none →
        sect_id ≠ node_id →
        (∀ sectNode sectText, alistGet st.nodes sect_id = some sectNode →
          sectNode.get? "text" = some (.str sectText) →
          alistGet st.id_path sect_id = some [sect_id] ∧
          alistGet st.name_path sect_id = some [sectText]) →
        LenInv st → PosInv st →
        LenInv st' ∧ PosInv st')
    ∧ (∀ st parent_id text idea_type note color ctt idea_id mtime st' node,
        Mindly.new_idea st parent_id text idea_type note color ctt idea_id mtime
          = .ok (st', node) →
        alistGet st.id_path idea_id = none →
        LenInv st → PosInv st →
        LenInv st' ∧ PosInv st') := by
  refine ⟨?_, ?_, ?_, ?_⟩
  · intro fuel st0 disk st' h hwf
    obtain ⟨⟨hL, hS, hD, hP⟩, -⟩ := load_files_invariants fuel st0 disk st' h hwf
    exact ⟨hL, hP⟩
  · intro st sid text st' node h hfresh hL hP
    obtain ⟨h2i, h2n, -⟩ := new_section_shape st sid text st' node h
    exact register_len_pos st st' sid text "" [] [] h2i h2n hfresh (Or.inl rfl)
      rfl hL hP
  · intro st text sect_id note color node_id file_id now mtime st' node h
      hfresh hsne hcons hL hP
    obtain ⟨sectNode, sectText, hsn, hstx, h2i, h2n, -⟩ :=
      new_document_shape st text sect_id note color node_id file_id now mtime
        st' node hsne h
    obtain ⟨hci, hcn⟩ := hcons sectNode sectText hsn hstx
    exact register_len_pos st st' node_id text sect_id [sect_id] [sectText]
      h2i h2n hfresh (Or.inr ⟨hci, hcn⟩) rfl hL hP
  · intro st parent_id text idea_type note color ctt idea_id mtime st' node h
      hfresh hL hP
    obtain ⟨pp, pn, hppid, hpnid, h2i, h2n, -⟩ :=
      new_idea_shape st parent_id text idea_type note color ctt idea_id mtime
        st' node h
    have hplen : pn.length = pp.length := by
      obtain ⟨q, hq, hlen⟩ := hL parent_id pp hppid
      rw [hpnid] at hq
      injection hq with hq
      rw [hq]
      exact hlen
    exact register_len_pos st st' idea_id text parent_id pp pn h2i h2n hfresh
      (Or.inr ⟨hppid, hpnid⟩) hplen hL hP

set_option maxRecDepth 8192 in
/-- Counterexample to C2 as claimed: creating a Section on a freshly
loaded state registers it in `id_path` but never adds it to
`structure`'s virtual-root entry, so `structure` no longer inverts the
parent relation after the operation. -/
theorem C2_counterexample : ∃ st2 node,
    Mindly.new_section stSec "s9" "Play" = .ok (st2, node)
    ∧ alistGet st2.id_path "s9" = some ["s9"]
    ∧ alistGet st2.«structure» "__root" = some ["s1"]
    ∧ ("s9" ∉ (["s1"] : List String)) := by
  refine ⟨_, _, rfl, rfl, rfl, by decide⟩

set_option maxRecDepth 8192 in
/-- Witness for the amended C2 on concrete data: loading a one-section
directory satisfies the hypotheses, the loaded `structure` lists the
section under the virtual root, and a subsequent `new_section` leaves
`structure` untouched. -/
theorem C2_witness :
    loadWF 9 diskSec = true
    ∧ sectionIdsFromDisk diskSec = some ["s1"]
    ∧ (∃ rl, alistGet stSec.«structure» "__root" = some rl ∧ "s1" ∈ rl)
    ∧ (∃ st2 node, Mindly.new_section stSec "s9" "Play" = .ok (st2, node)
        ∧ st2.«structure» = stSec.«structure») := by
  obtain ⟨hload, hsec, hdoc, hidea⟩ := C2_structure_inverse
  refine ⟨rfl, rfl, ?_, ?_⟩
  · have := (hload 9 stEmpty diskSec stSec ["s1"] loadSec_eval rfl rfl).2
    exact this "s1" (List.mem_singleton.mpr rfl)
  · obtain ⟨st2, node, hrun⟩ : ∃ a b,
        Mindly.new_section stSec "s9" "Play" = .ok (a, b) := ⟨_, _, rfl⟩
    exact ⟨st2, node, hrun, hsec stSec "s9" "Play" st2 node hrun⟩

set_option maxRecDepth 8192 in
/-- Witness for C9 on concrete data: the loaded one-section state
satisfies both ancestry invariants, and creating a Section with a fresh
identifier preserves them. -/
theorem C9_witness :
    loadWF 9 diskSec = true
    ∧ (LenInv stSec ∧ PosInv stSec)
    ∧ (∃ st2 node, Mindly.new_section stSec "s9" "Play" = .ok (st2, node)
        ∧ LenInv st2 ∧ PosInv st2) := by
  obtain ⟨hload, hsec, hdoc, hidea⟩ := C9_ancestry_lengths_agree
  have hbase := hload 9 stEmpty diskSec stSec loadSec_eval rfl
  refine ⟨rfl, hbase, ?_⟩
  obtain ⟨st2, node, hrun⟩ : ∃ a b,
      Mindly.new_section stSec "s9" "Play" = .ok (a, b) := ⟨_, _, rfl⟩
  exact ⟨st2, node, hrun,
    hsec stSec "s9" "Play" st2 node hrun rfl hbase.1 hbase.2⟩
